import Mathlib

/-!
Verification of the xtransfer reliable transport core (`src/xtransport`).

This file shallowly embeds the data model and the operations of the
transport engine: the CRC32 checksum, the frame codec, packet
fragmentation and reassembly, the send and receive sliding windows, the
retransmission manager with its exponential-backoff timer, the sender and
receiver channels, and the protocol connection-state machine.  Machine
integers are modelled as `Nat` with explicit `% 2^w` exactly where the
source wraps; buffers are modelled as `List Nat` of byte values; fallible
operations return `Except Error`.
-/

set_option maxRecDepth 2000

namespace XTransport

/-- Protocol version (`lib.rs`, `VERSION`). -/
def VERSION : Nat := 1

/-- Frame header size in bytes (`core/frame.rs`, `FRAME_HEADER_SIZE`). -/
def FRAME_HEADER_SIZE : Nat := 24

/-- Error kinds (`error.rs`, `enum Error`). -/
inductive Error where
  | bufferTooSmall
  | bufferFull
  | checksumMismatch
  | invalidFrame
  | invalidPacket
  | sequenceOutOfRange
  | payloadTooLarge
  | packetTooLarge
  | timeout
  | maxRetransmitExceeded
  | channelClosed
  | windowFull
  | duplicateFrame
  | ioError
  | versionMismatch
  | invalidState
  | wouldBlock
  | endOfStream
  | incompleteFragment
  | invalidFragmentIndex
  | fragmentTimeout
  deriving DecidableEq

/-- `u16::to_be_bytes` on a 16-bit value. -/
def toBe16 (v : Nat) : List Nat := [v / 256 % 256, v % 256]

/-- `u32::to_be_bytes` on a 32-bit value. -/
def toBe32 (v : Nat) : List Nat :=
  [v / 16777216 % 256, v / 65536 % 256, v / 256 % 256, v % 256]

/-- `u16::from_be_bytes` of two bytes. -/
def fromBe16 (a b : Nat) : Nat := a * 256 + b

/-- `u32::from_be_bytes` of four bytes. -/
def fromBe32 (a b c d : Nat) : Nat := a * 16777216 + b * 65536 + c * 256 + d

/-- CRC32 polynomial, IEEE 802.3 reflected (`core/checksum.rs`). -/
def CRC32_POLYNOMIAL : Nat := 0xEDB88320

/-- One shift-xor step of the table generator (`core/checksum.rs`,
`generate_crc32_table`, inner loop body). -/
def crcTableStep (crc : Nat) : Nat :=
  if crc % 2 = 1 then (crc >>> 1) ^^^ CRC32_POLYNOMIAL else crc >>> 1

/-- One table entry: eight shift-xor steps applied to the index. -/
def crcTableEntry (i : Nat) : Nat := crcTableStep^[8] i

/-- The 256-entry CRC32 lookup table (`core/checksum.rs`, `CRC32_TABLE`). -/
def CRC32_TABLE : List Nat := (List.range 256).map crcTableEntry

/-- One byte of `Crc32::update`. -/
def crcUpdate1 (state byte : Nat) : Nat :=
  (state >>> 8) ^^^ CRC32_TABLE.getD ((state ^^^ byte) &&& 0xFF) 0

/-- `Crc32::update` over a byte slice. -/
def crcUpdate (state : Nat) (data : List Nat) : Nat := data.foldl crcUpdate1 state

/-- `Crc32::finalize`. -/
def crcFinalize (state : Nat) : Nat := state ^^^ 0xFFFFFFFF

/-- `Crc32::compute_slices`: update over each slice from the initial state
`0xFFFFFFFF`, then finalize. -/
def crcComputeSlices (slices : List (List Nat)) : Nat :=
  crcFinalize (slices.foldl crcUpdate 0xFFFFFFFF)

/-- Frame types (`core/frame.rs`, `enum FrameType`). -/
inductive FrameType where
  | data
  | ack
  | nack
  | ping
  | pong
  | reset
  | windowUpdate
  | sync
  | syncAck
  | fin
  | finAck
  deriving DecidableEq

/-- The `repr(u8)` discriminant of a frame type (`FrameType as u8`). -/
def FrameType.toU8 : FrameType → Nat
  | .data => 0x01
  | .ack => 0x02
  | .nack => 0x03
  | .ping => 0x04
  | .pong => 0x05
  | .reset => 0x06
  | .windowUpdate => 0x07
  | .sync => 0x08
  | .syncAck => 0x09
  | .fin => 0x0A
  | .finAck => 0x0B

/-- `FrameType::from_u8`. -/
def FrameType.fromU8 (value : Nat) : Option FrameType :=
  if value = 0x01 then some .data
  else if value = 0x02 then some .ack
  else if value = 0x03 then some .nack
  else if value = 0x04 then some .ping
  else if value = 0x05 then some .pong
  else if value = 0x06 then some .reset
  else if value = 0x07 then some .windowUpdate
  else if value = 0x08 then some .sync
  else if value = 0x09 then some .syncAck
  else if value = 0x0A then some .fin
  else if value = 0x0B then some .finAck
  else none

/-- A protocol frame (`core/frame.rs`, `struct Frame`).  Integer fields are
`Nat` carrying u8/u16/u32 values; the payload is a byte list. -/
structure Frame where
  version : Nat
  frame_type : FrameType
  flags : Nat
  sequence : Nat
  ack : Nat
  packet_id : Nat
  fragment_index : Nat
  total_fragments : Nat
  checksum : Nat
  payload : List Nat
  deriving DecidableEq

/-- Well-formedness of a frame: each field fits its machine width (enforced
by the Rust types `u8`/`u16`/`u32`), the version is current, and the
payload is short enough for its length to survive the `as u16` cast in
`Frame::serialize`. -/
def Frame.WF (f : Frame) : Prop :=
  f.version = VERSION ∧ f.flags < 65536 ∧ f.sequence < 4294967296 ∧
  f.ack < 4294967296 ∧ f.packet_id < 65536 ∧ f.fragment_index < 256 ∧
  f.total_fragments < 256 ∧ f.payload.length ≤ 65535 ∧ ∀ b ∈ f.payload, b < 256

instance (f : Frame) : Decidable f.WF := by
  unfold Frame.WF
  infer_instance

/-- `Frame::wire_size`. -/
def Frame.wire_size (f : Frame) : Nat := FRAME_HEADER_SIZE + f.payload.length

/-- The first 20 header bytes written by `Frame::serialize` (offsets 0-19:
version, type, flags, sequence, ack, packet id, fragment index, total
fragments, payload length as u16, two reserved zero bytes). -/
def Frame.header20 (f : Frame) : List Nat :=
  [f.version, f.frame_type.toU8] ++ toBe16 f.flags ++ toBe32 f.sequence ++
    toBe32 f.ack ++ toBe16 f.packet_id ++ [f.fragment_index, f.total_fragments] ++
    toBe16 (f.payload.length % 65536) ++ [0, 0]

/-- `Frame::serialize` into a buffer of length `bufLen`: fails with
buffer-too-small when the buffer is shorter than the wire size, otherwise
returns the bytes written (20 header bytes, CRC32 over those bytes and the
payload at offset 20, then the payload).  The returned list has length
`wire_size`, the value `serialize` returns in Rust. -/
def Frame.serialize (f : Frame) (bufLen : Nat) : Except Error (List Nat) :=
  if bufLen < f.wire_size then .error .bufferTooSmall
  else
    .ok (f.header20 ++ toBe32 (crcComputeSlices [f.header20, f.payload]) ++ f.payload)

/-- `Frame::deserialize`: parse a frame from `buf`, returning the frame and
the number of consumed bytes.  The first match arm corresponds to the Rust
length check `buf.len() < FRAME_HEADER_SIZE`: a buffer passing it is 24
named header bytes followed by `rest`, and `buf.len() = 24 + rest.length`. -/
def Frame.deserialize (buf : List Nat) : Except Error (Frame × Nat) :=
  match buf with
  | b0 :: b1 :: b2 :: b3 :: b4 :: b5 :: b6 :: b7 :: b8 :: b9 :: b10 :: b11 ::
      b12 :: b13 :: b14 :: b15 :: b16 :: b17 :: b18 :: b19 :: b20 :: b21 ::
      b22 :: b23 :: rest =>
    if b0 ≠ VERSION then .error .versionMismatch
    else
      match FrameType.fromU8 b1 with
      | none => .error .invalidFrame
      | some frame_type =>
        let payload_len := fromBe16 b16 b17
        let stored_checksum := fromBe32 b20 b21 b22 b23
        let total_size := FRAME_HEADER_SIZE + payload_len
        if FRAME_HEADER_SIZE + rest.length < total_size then .error .bufferTooSmall
        else
          let payload := rest.take payload_len
          if stored_checksum ≠
              crcComputeSlices
                [[b0, b1, b2, b3, b4, b5, b6, b7, b8, b9, b10, b11, b12, b13,
                  b14, b15, b16, b17, b18, b19], payload] then
            .error .checksumMismatch
          else
            .ok ({ version := b0
                   frame_type := frame_type
                   flags := fromBe16 b2 b3
                   sequence := fromBe32 b4 b5 b6 b7
                   ack := fromBe32 b8 b9 b10 b11
                   packet_id := fromBe16 b12 b13
                   fragment_index := b14
                   total_fragments := b15
                   checksum := stored_checksum
                   payload := payload }, total_size)
  | _ => .error .bufferTooSmall

lemma fromBe16_toBe16 (v : Nat) (h : v < 65536) :
    fromBe16 (v / 256 % 256) (v % 256) = v := by
  unfold fromBe16
  omega

lemma fromBe32_toBe32 (v : Nat) (h : v < 4294967296) :
    fromBe32 (v / 16777216 % 256) (v / 65536 % 256) (v / 256 % 256) (v % 256) = v := by
  unfold fromBe32
  omega

lemma frameType_fromU8_toU8 (ft : FrameType) : FrameType.fromU8 ft.toU8 = some ft := by
  cases ft <;> rfl

lemma xor_lt_u32 {a b : Nat} (ha : a < 4294967296) (hb : b < 4294967296) :
    a ^^^ b < 4294967296 := by
  have h32 : (4294967296 : Nat) = 2 ^ 32 := by norm_num
  rw [h32] at ha hb ⊢
  exact Nat.xor_lt_two_pow ha hb

lemma crcTableStep_lt {c : Nat} (hc : c < 4294967296) : crcTableStep c < 4294967296 := by
  unfold crcTableStep
  have h1 : c >>> 1 < 4294967296 := by
    rw [Nat.shiftRight_eq_div_pow]
    exact lt_of_le_of_lt (Nat.div_le_self _ _) hc
  split
  · exact xor_lt_u32 h1 (by norm_num [CRC32_POLYNOMIAL])
  · exact h1

lemma crcTableEntry_lt {i : Nat} (hi : i < 4294967296) : crcTableEntry i < 4294967296 := by
  unfold crcTableEntry
  have : ∀ n x, x < 4294967296 → crcTableStep^[n] x < 4294967296 := by
    intro n
    induction n with
    | zero => intro x hx; simpa using hx
    | succ m ih =>
      intro x hx
      rw [Function.iterate_succ_apply]
      exact ih _ (crcTableStep_lt hx)
  exact this 8 i hi

lemma crcTable_mem_lt : ∀ x ∈ CRC32_TABLE, x < 4294967296 := by
  intro x hx
  unfold CRC32_TABLE at hx
  obtain ⟨i, hi, rfl⟩ := List.mem_map.mp hx
  have : i < 256 := List.mem_range.mp hi
  exact crcTableEntry_lt (by omega)

lemma crcTable_getD_lt (idx : Nat) : CRC32_TABLE.getD idx 0 < 4294967296 := by
  by_cases h : idx < CRC32_TABLE.length
  · rw [List.getD_eq_getElem _ _ h]
    exact crcTable_mem_lt _ (List.getElem_mem h)
  · rw [List.getD_eq_default _ _ (Nat.le_of_not_lt h)]
    norm_num


lemma crcUpdate1_lt (s b : Nat) (hs : s < 4294967296) : crcUpdate1 s b < 4294967296 := by
  unfold crcUpdate1
  refine xor_lt_u32 ?_ (crcTable_getD_lt _)
  calc s >>> 8 ≤ s := by
        rw [Nat.shiftRight_eq_div_pow]
        exact Nat.div_le_self _ _
    _ < 4294967296 := hs

lemma crcUpdate_lt (data : List Nat) (s : Nat) (hs : s < 4294967296) :
    crcUpdate s data < 4294967296 := by
  induction data generalizing s with
  | nil => simpa [crcUpdate] using hs
  | cons a l ih =>
    simp only [crcUpdate, List.foldl_cons] at *
    exact ih _ (crcUpdate1_lt _ _ hs)

lemma crcComputeSlices_lt (slices : List (List Nat)) :
    crcComputeSlices slices < 4294967296 := by
  unfold crcComputeSlices crcFinalize
  refine xor_lt_u32 ?_ (by norm_num)
  have : ∀ (ss : List (List Nat)) (s : Nat), s < 4294967296 →
      ss.foldl crcUpdate s < 4294967296 := by
    intro ss
    induction ss with
    | nil => intro s hs; simpa using hs
    | cons a l ih =>
      intro s hs
      exact ih _ (crcUpdate_lt _ _ hs)
  exact this _ _ (by norm_num)

/-- C1: for every well-formed frame (current version, fields within their
machine widths, payload at most 65535 bytes) and a large-enough buffer,
`Frame::serialize` succeeds, `Frame::deserialize` of the written bytes
succeeds, the decoded frame agrees with the original in version, type,
flags, sequence, ack, packet id, fragment index, total fragments and
payload, and the consumed byte count equals the number of bytes written. -/
theorem frame_serialize_deserialize_roundtrip (f : Frame) (bufLen : Nat)
    (hwf : f.WF) (hbuf : f.wire_size ≤ bufLen) :
    ∃ bytes g,
      f.serialize bufLen = Except.ok bytes ∧
      Frame.deserialize bytes = Except.ok (g, bytes.length) ∧
      g.version = f.version ∧ g.frame_type = f.frame_type ∧ g.flags = f.flags ∧
      g.sequence = f.sequence ∧ g.ack = f.ack ∧ g.packet_id = f.packet_id ∧
      g.fragment_index = f.fragment_index ∧ g.total_fragments = f.total_fragments ∧
      g.payload = f.payload := by
  obtain ⟨hv, hfl, hsq, hak, hpi, hfi, htf, hpl, hpb⟩ := hwf
  set cs := crcComputeSlices [f.header20, f.payload] with hcs
  have hcslt : cs < 4294967296 := crcComputeSlices_lt _
  have hplen : f.payload.length % 65536 = f.payload.length := Nat.mod_eq_of_lt (by omega)
  have hh : f.header20 ++ toBe32 cs ++ f.payload =
      f.version :: f.frame_type.toU8 :: (f.flags / 256 % 256) :: (f.flags % 256) ::
      (f.sequence / 16777216 % 256) :: (f.sequence / 65536 % 256) ::
      (f.sequence / 256 % 256) :: (f.sequence % 256) ::
      (f.ack / 16777216 % 256) :: (f.ack / 65536 % 256) ::
      (f.ack / 256 % 256) :: (f.ack % 256) ::
      (f.packet_id / 256 % 256) :: (f.packet_id % 256) ::
      f.fragment_index :: f.total_fragments ::
      (f.payload.length % 65536 / 256 % 256) :: (f.payload.length % 65536 % 256) ::
      0 :: 0 ::
      (cs / 16777216 % 256) :: (cs / 65536 % 256) :: (cs / 256 % 256) :: (cs % 256) ::
      f.payload := by
    simp [Frame.header20, toBe16, toBe32]
  refine ⟨f.header20 ++ toBe32 cs ++ f.payload,
    { version := f.version, frame_type := f.frame_type, flags := f.flags,
      sequence := f.sequence, ack := f.ack, packet_id := f.packet_id,
      fragment_index := f.fragment_index, total_fragments := f.total_fragments,
      checksum := cs, payload := f.payload },
    ?_, ?_, rfl, rfl, rfl, rfl, rfl, rfl, rfl, rfl, rfl⟩
  · unfold Frame.serialize
    rw [if_neg (by omega), hcs]
  · rw [hh]
    have hlen : (f.header20 ++ toBe32 cs ++ f.payload).length =
        24 + f.payload.length := by
      rw [hh]
      simp
      omega
    rw [hh] at hlen
    rw [hlen]
    simp only [Frame.deserialize]
    rw [if_neg (by simp [hv]), frameType_fromU8_toU8]
    have hpe : fromBe16 (f.payload.length % 65536 / 256 % 256)
        (f.payload.length % 65536 % 256) = f.payload.length := by
      rw [hplen]
      exact fromBe16_toBe16 _ (by omega)
    simp only [hpe]
    rw [if_neg (by unfold FRAME_HEADER_SIZE; omega)]
    have htk : f.payload.take f.payload.length = f.payload := List.take_length f.payload
    simp only [htk]
    have hcs20 : [f.version, f.frame_type.toU8, f.flags / 256 % 256, f.flags % 256,
        f.sequence / 16777216 % 256, f.sequence / 65536 % 256,
        f.sequence / 256 % 256, f.sequence % 256,
        f.ack / 16777216 % 256, f.ack / 65536 % 256, f.ack / 256 % 256, f.ack % 256,
        f.packet_id / 256 % 256, f.packet_id % 256,
        f.fragment_index, f.total_fragments,
        f.payload.length % 65536 / 256 % 256, f.payload.length % 65536 % 256,
        0, 0] = f.header20 := by
      simp [Frame.header20, toBe16, toBe32]
    have hsto : fromBe32 (cs / 16777216 % 256) (cs / 65536 % 256) (cs / 256 % 256)
        (cs % 256) = cs := fromBe32_toBe32 _ hcslt
    rw [hcs20, hsto]
    rw [if_neg (by simp [hcs])]
    have hfl2 : fromBe16 (f.flags / 256 % 256) (f.flags % 256) = f.flags :=
      fromBe16_toBe16 _ hfl
    have hsq2 : fromBe32 (f.sequence / 16777216 % 256) (f.sequence / 65536 % 256)
        (f.sequence / 256 % 256) (f.sequence % 256) = f.sequence :=
      fromBe32_toBe32 _ hsq
    have hak2 : fromBe32 (f.ack / 16777216 % 256) (f.ack / 65536 % 256)
        (f.ack / 256 % 256) (f.ack % 256) = f.ack := fromBe32_toBe32 _ hak
    have hpi2 : fromBe16 (f.packet_id / 256 % 256) (f.packet_id % 256) = f.packet_id :=
      fromBe16_toBe16 _ hpi
    rw [hfl2, hsq2, hak2, hpi2]
    rfl

/-- A small concrete data frame used to instantiate the round-trip theorem. -/
def exampleFrame : Frame :=
  { version := 1, frame_type := .data, flags := 3, sequence := 7, ack := 2,
    packet_id := 100, fragment_index := 0, total_fragments := 1, checksum := 0,
    payload := [104, 105] }

/-- Witness for the round-trip theorem at a concrete frame and buffer size. -/
theorem frame_serialize_deserialize_roundtrip_witness :
    exampleFrame.WF ∧ exampleFrame.wire_size ≤ 64 ∧
    ∃ bytes g,
      exampleFrame.serialize 64 = Except.ok bytes ∧
      Frame.deserialize bytes = Except.ok (g, bytes.length) ∧
      g.version = exampleFrame.version ∧ g.frame_type = exampleFrame.frame_type ∧
      g.flags = exampleFrame.flags ∧ g.sequence = exampleFrame.sequence ∧
      g.ack = exampleFrame.ack ∧ g.packet_id = exampleFrame.packet_id ∧
      g.fragment_index = exampleFrame.fragment_index ∧
      g.total_fragments = exampleFrame.total_fragments ∧
      g.payload = exampleFrame.payload :=
  ⟨by decide, by decide,
    frame_serialize_deserialize_roundtrip exampleFrame 64 (by decide) (by decide)⟩

/-! ## Protocol connection-state machine (`protocol.rs`) -/

/-- Connection states (`protocol.rs`, `enum ConnectionState`). -/
inductive ConnectionState where
  | idle
  | connecting
  | accepting
  | connected
  | closing
  | closed
  deriving DecidableEq

/-- The connection-state component of `Protocol::handle_frame`: the state
the engine is in after handling a frame of the given type while in state
`s`.  (The other effects of `handle_frame` — emitted frames, receiver and
sender updates — do not touch `self.state`.) -/
def handleFrameState (s : ConnectionState) (t : FrameType) : ConnectionState :=
  match t with
  | .sync => .accepting
  | .syncAck => if s = .connecting then .connected else s
  | .data => s
  | .ack => s
  | .nack => s
  | .ping => s
  | .pong => s
  | .fin => .closing
  | .finAck => .closed
  | .reset => .closed
  | .windowUpdate => s

/-- State transition of `Protocol::connect`: only from IDLE (else
`InvalidState`, state unchanged). -/
def connectState (s : ConnectionState) : ConnectionState :=
  if s = .idle then .connecting else s

/-- State transition of `Protocol::accept`: only from ACCEPTING (else
`InvalidState`, state unchanged). -/
def acceptState (s : ConnectionState) : ConnectionState :=
  if s = .accepting then .connected else s

/-- State transition of `Protocol::close`: only from CONNECTED (else a
no-op returning `Ok`). -/
def closeState (s : ConnectionState) : ConnectionState :=
  if s = .connected then .closing else s

/-- The edge relation asserted by the specification (modelled from the
spec's words, for comparison with the code): IDLE→CONNECTING,
CONNECTING→CONNECTED, CONNECTED→CLOSING, CLOSING→CLOSED, IDLE→ACCEPTING,
ACCEPTING→CONNECTED, and any state →CLOSED (the RESET rule). -/
def specClaimedEdge (s t : ConnectionState) : Prop :=
  (s = .idle ∧ t = .connecting) ∨ (s = .connecting ∧ t = .connected) ∨
  (s = .connected ∧ t = .closing) ∨ (s = .closing ∧ t = .closed) ∨
  (s = .idle ∧ t = .accepting) ∨ (s = .accepting ∧ t = .connected) ∨
  t = .closed

instance (s t : ConnectionState) : Decidable (specClaimedEdge s t) := by
  unfold specClaimedEdge
  infer_instance

/-- C9 counterexample: a SYNC frame received while CONNECTED moves the
engine to ACCEPTING, a state change along no edge of the claimed machine
(which in particular forbids CONNECTED→ACCEPTING). -/
theorem connected_sync_moves_to_accepting :
    handleFrameState .connected .sync = .accepting ∧
    ¬ specClaimedEdge .connected .accepting := by decide

/-- The actual frame-driven transition relation of `handle_frame`
(modelled from the amended claim's words, for comparison with the code):
SYNC moves any state to ACCEPTING, SYNC_ACK moves CONNECTING to CONNECTED
and is ignored elsewhere, FIN moves any state to CLOSING, FIN_ACK and
RESET move any state to CLOSED, every other frame type leaves the state
unchanged. -/
def amendedFrameTransition (s : ConnectionState) (t : FrameType) : ConnectionState :=
  match t with
  | .sync => .accepting
  | .syncAck => if s = .connecting then .connected else s
  | .fin => .closing
  | .finAck => .closed
  | .reset => .closed
  | _ => s

/-- C9 (amended): every frame-driven state change of the engine follows
the amended transition relation (SYNC: any→ACCEPTING, including away from
CONNECTED; SYNC_ACK: CONNECTING→CONNECTED only; FIN: any→CLOSING; FIN_ACK
and RESET: any→CLOSED; other frames: no change), and the API transitions
are connect: IDLE→CONNECTING, accept: ACCEPTING→CONNECTED, close:
CONNECTED→CLOSING, each a no-op from any other state. -/
theorem protocol_state_machine_edges :
    (∀ s t, handleFrameState s t = amendedFrameTransition s t) ∧
    (∀ s, connectState s = if s = .idle then .connecting else s) ∧
    (∀ s, acceptState s = if s = .accepting then .connected else s) ∧
    (∀ s, closeState s = if s = .connected then .closing else s) := by
  refine ⟨?_, fun s => rfl, fun s => rfl, fun s => rfl⟩
  intro s t
  cases t <;> rfl

/-! ## Receiver channel `read` (`channel/receiver.rs`) -/

/-- The receiver-channel state touched by `Receiver::read`
(`channel/receiver.rs`, `struct Receiver`): the staging buffer `recv_buf`
(a fixed `[u8; N]` array, modelled as its byte list), the staged length
`recv_len`, the `packet_ready` flag and the current packet id.  The
receive window and the reassembler are untouched by `read`. -/
structure ReceiverCore where
  recv_buf : List Nat
  recv_len : Nat
  packet_ready : Bool
  current_packet_id : Nat
  deriving DecidableEq

/-- `Receiver::read` into a destination buffer of length `bufLen`: fails
with would-block when no packet is staged, with buffer-too-small when the
destination is shorter than the staged length (both leaving the state
unchanged); otherwise returns the staged bytes (`recv_buf[..recv_len]`,
whose length is the returned count) and clears `packet_ready` and
`recv_len`. -/
def ReceiverCore.read (r : ReceiverCore) (bufLen : Nat) :
    Except Error (List Nat) × ReceiverCore :=
  if r.packet_ready = false then (.error .wouldBlock, r)
  else if bufLen < r.recv_len then (.error .bufferTooSmall, r)
  else (.ok (r.recv_buf.take r.recv_len),
    { r with packet_ready := false, recv_len := 0 })

/-- C10: with a staged packet of length `recv_len` ready, `read` into a
too-short buffer fails with buffer-too-small and leaves the state
unchanged, so a subsequent `read` on the resulting state with a buffer of
at least that length returns exactly the staged packet bytes; and `read`
with no packet ready fails with would-block, also leaving the state
unchanged. -/
theorem receiver_read_too_small_then_ok (r : ReceiverCore) (small big : Nat)
    (hready : r.packet_ready = true) (hsmall : small < r.recv_len)
    (hbig : r.recv_len ≤ big) :
    r.read small = (.error .bufferTooSmall, r) ∧
    ((r.read small).2).read big =
      (.ok (r.recv_buf.take r.recv_len),
        { r with packet_ready := false, recv_len := 0 }) ∧
    (∀ (r2 : ReceiverCore) (n : Nat), r2.packet_ready = false →
      r2.read n = (.error .wouldBlock, r2)) := by
  have h1 : r.read small = (.error .bufferTooSmall, r) := by
    unfold ReceiverCore.read
    rw [if_neg (by simp [hready]), if_pos hsmall]
  refine ⟨h1, ?_, ?_⟩
  · rw [h1]
    show r.read big = _
    unfold ReceiverCore.read
    rw [if_neg (by simp [hready]), if_neg (by omega)]
  · intro r2 n h2
    unfold ReceiverCore.read
    rw [if_pos h2]

/-- A concrete receiver state with a 5-byte staged packet. -/
def exampleReceiver : ReceiverCore :=
  { recv_buf := [72, 101, 108, 108, 111, 0, 0, 0], recv_len := 5,
    packet_ready := true, current_packet_id := 9 }

/-- Witness for the receiver `read` theorem at a concrete staged state. -/
theorem receiver_read_too_small_then_ok_witness :
    exampleReceiver.packet_ready = true ∧ 2 < exampleReceiver.recv_len ∧
    exampleReceiver.recv_len ≤ 8 ∧
    (exampleReceiver.read 2 = (.error .bufferTooSmall, exampleReceiver) ∧
    ((exampleReceiver.read 2).2).read 8 =
      (.ok (exampleReceiver.recv_buf.take exampleReceiver.recv_len),
        { exampleReceiver with packet_ready := false, recv_len := 0 }) ∧
    (∀ (r2 : ReceiverCore) (n : Nat), r2.packet_ready = false →
      r2.read n = (.error .wouldBlock, r2))) :=
  ⟨by decide, by decide, by decide,
    receiver_read_too_small_then_ok exampleReceiver 2 8 (by decide) (by decide) (by decide)⟩

/-! ## Retransmission management (`reliable/retransmit.rs`) -/

/-- `u32` wrapping subtraction `a.wrapping_sub(b)` for values below `2^32`. -/
def wsub32 (a b : Nat) : Nat := (4294967296 + a - b) % 4294967296

/-- Retransmission statistics (`RetransmitStats`). -/
structure RetransmitStats where
  frames_sent : Nat
  retransmissions : Nat
  failed_frames : Nat
  successful_deliveries : Nat
  deriving DecidableEq

/-- `RetransmitStats::new`. -/
def RetransmitStats.new : RetransmitStats := ⟨0, 0, 0, 0⟩

/-- An entry tracking a frame pending acknowledgment (`PendingFrame`). -/
structure PendingFrame where
  sequence : Nat
  last_sent : Nat
  attempts : Nat
  active : Bool
  deriving DecidableEq

/-- `PendingFrame::new`: one attempt already made, active. -/
def PendingFrame.newFrame (sequence timestamp : Nat) : PendingFrame :=
  ⟨sequence, timestamp, 1, true⟩

/-- `PendingFrame::empty`. -/
def PendingFrame.empty : PendingFrame := ⟨0, 0, 0, false⟩

instance : Inhabited PendingFrame := ⟨PendingFrame.empty⟩

/-- Exponential-backoff retransmission timer (`RetransmitTimer`). -/
structure RetransmitTimer where
  base_timeout : Nat
  max_timeout : Nat
  current_timeout : Nat
  backoff_factor : Nat
  deriving DecidableEq

/-- `RetransmitTimer::new`. -/
def RetransmitTimer.new (base_timeout max_timeout backoff_factor : Nat) :
    RetransmitTimer :=
  ⟨base_timeout, max_timeout, base_timeout, backoff_factor⟩

/-- `u64::MAX`, the saturation bound of `u64::saturating_mul`. -/
def U64MAX : Nat := 18446744073709551615

/-- `RetransmitTimer::backoff`:
`current := min(current.saturating_mul(factor), max_timeout)`. -/
def RetransmitTimer.backoff (t : RetransmitTimer) : RetransmitTimer :=
  { t with
    current_timeout := min (min (t.current_timeout * t.backoff_factor) U64MAX) t.max_timeout }

/-- `RetransmitTimer::reset`: back to the base timeout. -/
def RetransmitTimer.reset (t : RetransmitTimer) : RetransmitTimer :=
  { t with current_timeout := t.base_timeout }

/-- `RetransmitTimer::update_rtt`: `base := rtt + rtt/2`, current follows. -/
def RetransmitTimer.update_rtt (t : RetransmitTimer) (rtt : Nat) : RetransmitTimer :=
  { t with base_timeout := rtt + rtt / 2, current_timeout := rtt + rtt / 2 }

/-- Retransmission manager (`RetransmitManager<N>`): the `pending` array is
modelled as a list of length `N`. -/
structure RetransmitManager where
  pending : List PendingFrame
  count : Nat
  max_attempts : Nat
  timer : RetransmitTimer
  stats : RetransmitStats
  deriving DecidableEq

/-- `RetransmitManager::new`. -/
def RetransmitManager.new (N max_attempts : Nat) (timer : RetransmitTimer) :
    RetransmitManager :=
  ⟨List.replicate N PendingFrame.empty, 0, max_attempts, timer, RetransmitStats.new⟩

/-- Scan of `RetransmitManager::register` for the first free slot. -/
def registerAux (p : PendingFrame) : List PendingFrame → Option (List PendingFrame)
  | [] => none
  | e :: es =>
    if e.active = false then some (p :: es)
    else (registerAux p es).map (e :: ·)

/-- `RetransmitManager::register`. -/
def RetransmitManager.register (m : RetransmitManager) (sequence timestamp : Nat) :
    Except Error RetransmitManager :=
  match registerAux (PendingFrame.newFrame sequence timestamp) m.pending with
  | some l =>
    .ok { m with
          pending := l,
          count := m.count + 1,
          stats := { m.stats with frames_sent := m.stats.frames_sent + 1 } }
  | none => .error .bufferFull

/-- Scan of `RetransmitManager::acknowledge` for the first active entry
with the given sequence; yields the updated entries and the measured RTT. -/
def acknowledgeAux (sequence current_time : Nat) :
    List PendingFrame → Option (List PendingFrame × Nat)
  | [] => none
  | e :: es =>
    if e.active = true ∧ e.sequence = sequence then
      some ({ e with active := false } :: es, current_time - e.last_sent)
    else (acknowledgeAux sequence current_time es).map (fun r => (e :: r.1, r.2))

/-- `RetransmitManager::acknowledge`: retire the first matching active
entry, count the delivery, update the RTT estimate and reset the timer. -/
def RetransmitManager.acknowledge (m : RetransmitManager) (sequence current_time : Nat) :
    Option Nat × RetransmitManager :=
  match acknowledgeAux sequence current_time m.pending with
  | some (l, rtt) =>
    (some rtt,
      { m with
        pending := l,
        count := m.count - 1,
        stats := { m.stats with successful_deliveries := m.stats.successful_deliveries + 1 },
        timer := (m.timer.update_rtt rtt).reset })
  | none => (none, m)

/-- `RetransmitManager::acknowledge_cumulative`: collect into a capacity-64
`heapless::Vec` (overflowing pushes silently dropped) the sequences of the
active entries with `ack_seq.wrapping_sub(seq) < 0x7FFFFFFF`, then
acknowledge each collected sequence in order. -/
def RetransmitManager.acknowledge_cumulative (m : RetransmitManager)
    (ack_seq current_time : Nat) : RetransmitManager :=
  let to_ack := m.pending.foldl
    (fun acc e =>
      if e.active = true ∧ wsub32 ack_seq e.sequence < 0x7FFFFFFF then
        (if acc.length < 64 then acc ++ [e.sequence] else acc)
      else acc) []
  to_ack.foldl (fun mm s => (mm.acknowledge s current_time).2) m

/-- One pass of `RetransmitManager::check_timeouts` over the entry list:
returns the updated entries, the retransmit count, the number of entries
dropped as failed, and the `(sequence, exceeded)` callback invocations. -/
def checkTimeoutsAux (current_time timeout max_attempts : Nat) :
    List PendingFrame → List PendingFrame × Nat × Nat × List (Nat × Bool)
  | [] => ([], 0, 0, [])
  | e :: es =>
    let r := checkTimeoutsAux current_time timeout max_attempts es
    if e.active = true ∧ timeout ≤ current_time - e.last_sent then
      if max_attempts ≤ e.attempts then
        ({ e with active := false } :: r.1, r.2.1, r.2.2.1 + 1,
          (e.sequence, true) :: r.2.2.2)
      else (e :: r.1, r.2.1 + 1, r.2.2.1, (e.sequence, false) :: r.2.2.2)
    else (e :: r.1, r.2.1, r.2.2.1, r.2.2.2)

/-- `RetransmitManager::check_timeouts`: walk the entries against the
current timeout, drop exceeded entries as failed, and back off the timer
exactly when some expired entry still had attempts left; returns the
manager, the retransmit count and the callback list. -/
def RetransmitManager.check_timeouts (m : RetransmitManager) (current_time : Nat) :
    RetransmitManager × Nat × List (Nat × Bool) :=
  let r := checkTimeoutsAux current_time m.timer.current_timeout m.max_attempts m.pending
  ({ m with
     pending := r.1,
     count := m.count - r.2.2.1,
     stats := { m.stats with failed_frames := m.stats.failed_frames + r.2.2.1 },
     timer := if 0 < r.2.1 then m.timer.backoff else m.timer },
    r.2.1, r.2.2.2)

/-- Scan of `RetransmitManager::mark_retransmitted`. -/
def markRetransmittedAux (sequence timestamp : Nat) :
    List PendingFrame → Option (List PendingFrame)
  | [] => none
  | e :: es =>
    if e.active = true ∧ e.sequence = sequence then
      some ({ e with last_sent := timestamp, attempts := (e.attempts + 1) % 256 } :: es)
    else (markRetransmittedAux sequence timestamp es).map (e :: ·)

/-- `RetransmitManager::mark_retransmitted`. -/
def RetransmitManager.mark_retransmitted (m : RetransmitManager)
    (sequence timestamp : Nat) : Except Error RetransmitManager :=
  match markRetransmittedAux sequence timestamp m.pending with
  | some l =>
    .ok { m with
          pending := l,
          stats := { m.stats with retransmissions := m.stats.retransmissions + 1 } }
  | none => .error .sequenceOutOfRange

/-- `RetransmitManager::pending_sequences`. -/
def RetransmitManager.pending_sequences (m : RetransmitManager) : List Nat :=
  (m.pending.filter (fun e => e.active)).map (fun e => e.sequence)

/-! ### C5: exponential backoff across consecutive `check_timeouts` calls -/

/-- Iterated `check_timeouts` at the given sequence of times. -/
def checkRun (m : RetransmitManager) (ts : List Nat) : RetransmitManager :=
  ts.foldl (fun mm t => (mm.check_timeouts t).1) m

/-- Every call of the run found at least one expired entry that had not
exceeded its attempt budget (its retransmit count was positive), which is
the condition under which the code backs the timer off. -/
def allBackoff : RetransmitManager → List Nat → Prop
  | _, [] => True
  | m, t :: ts => 0 < (m.check_timeouts t).2.1 ∧ allBackoff (m.check_timeouts t).1 ts

lemma check_timeouts_timer_pos (m : RetransmitManager) (t : Nat)
    (h : 0 < (m.check_timeouts t).2.1) :
    (m.check_timeouts t).1.timer = m.timer.backoff := by
  unfold RetransmitManager.check_timeouts at h ⊢
  simp only at h ⊢
  rw [if_pos h]

lemma check_timeouts_timer_neg (m : RetransmitManager) (t : Nat)
    (h : ¬ 0 < (m.check_timeouts t).2.1) :
    (m.check_timeouts t).1.timer = m.timer := by
  unfold RetransmitManager.check_timeouts at h ⊢
  simp only at h ⊢
  rw [if_neg h]

lemma sat_min (x c : Nat) (hc : c ≤ U64MAX) : min (min x U64MAX) c = min x c := by
  rcases le_total x U64MAX with h | h
  · rw [min_eq_left h]
  · rw [min_eq_right h, min_eq_right hc, min_eq_right (le_trans hc h)]

lemma min_mul_min (a c f : Nat) : min (min a c * f) c = min (a * f) c := by
  rcases le_total a c with h | h
  · rw [min_eq_left h]
  · rw [min_eq_right h]
    rcases Nat.eq_zero_or_pos f with rfl | hf
    · simp
    · have h1 : c ≤ c * f := Nat.le_mul_of_pos_right c hf
      have h2 : c ≤ a * f := le_trans h1 (Nat.mul_le_mul_right f h)
      rw [min_eq_right h1, min_eq_right h2]

lemma backoff_current (t : RetransmitTimer) (hmax : t.max_timeout ≤ U64MAX) :
    (t.backoff).current_timeout =
      min (t.current_timeout * t.backoff_factor) t.max_timeout := by
  unfold RetransmitTimer.backoff
  exact sat_min _ _ hmax

lemma checkRun_current (ts : List Nat) : ∀ (m : RetransmitManager) (j : Nat),
    allBackoff m ts →
    m.timer.max_timeout ≤ U64MAX →
    m.timer.current_timeout =
      min (m.timer.base_timeout * m.timer.backoff_factor ^ j) m.timer.max_timeout →
    (checkRun m ts).timer.current_timeout =
      min (m.timer.base_timeout * m.timer.backoff_factor ^ (j + ts.length))
        m.timer.max_timeout ∧
    (checkRun m ts).timer.base_timeout = m.timer.base_timeout ∧
    (checkRun m ts).timer.max_timeout = m.timer.max_timeout ∧
    (checkRun m ts).timer.backoff_factor = m.timer.backoff_factor := by
  induction ts with
  | nil =>
    intro m j _ _ hcur
    exact ⟨by simpa [checkRun] using hcur, rfl, rfl, rfl⟩
  | cons t ts ih =>
    intro m j hab hmax hcur
    obtain ⟨hpos, hab2⟩ := hab
    have htimer : (m.check_timeouts t).1.timer = m.timer.backoff :=
      check_timeouts_timer_pos m t hpos
    have hstep : (m.check_timeouts t).1.timer.current_timeout =
        min (m.timer.base_timeout * m.timer.backoff_factor ^ (j + 1))
          m.timer.max_timeout := by
      rw [htimer, backoff_current _ hmax, hcur, min_mul_min, mul_assoc, ← pow_succ]
    have hfields : (m.check_timeouts t).1.timer.base_timeout = m.timer.base_timeout ∧
        (m.check_timeouts t).1.timer.max_timeout = m.timer.max_timeout ∧
        (m.check_timeouts t).1.timer.backoff_factor = m.timer.backoff_factor := by
      rw [htimer]
      exact ⟨rfl, rfl, rfl⟩
    have hrun : checkRun m (t :: ts) = checkRun (m.check_timeouts t).1 ts := rfl
    have hih := ih (m.check_timeouts t).1 (j + 1) hab2
      (by rw [hfields.2.1]; exact hmax)
      (by rw [hstep, hfields.1, hfields.2.1, hfields.2.2])
    rw [hrun]
    refine ⟨?_, ?_, ?_, ?_⟩
    · rw [hih.1, hfields.1, hfields.2.1, hfields.2.2]
      have : j + 1 + ts.length = j + (t :: ts).length := by simp; omega
      rw [this]
    · rw [hih.2.1, hfields.1]
    · rw [hih.2.2.1, hfields.2.1]
    · rw [hih.2.2.2, hfields.2.2]

/-- C5 (amended): after `k` consecutive `check_timeouts` calls in each of
which some expired entry had NOT exceeded its attempt budget (the code
backs off only for such entries — an expired entry that exceeded
max-attempts does not trigger backoff), starting from a timer at its base
timeout, the current timeout equals
`min(base_timeout · backoff_factor^k, max_timeout)`; and every successful
`acknowledge` resets the current timeout to the (RTT-updated) base
timeout. -/
theorem retransmit_backoff_formula (m : RetransmitManager) (ts : List Nat)
    (hcur : m.timer.current_timeout = m.timer.base_timeout)
    (hmax : m.timer.max_timeout ≤ U64MAX)
    (hne : ts ≠ [])
    (hab : allBackoff m ts) :
    (checkRun m ts).timer.current_timeout =
      min (m.timer.base_timeout * m.timer.backoff_factor ^ ts.length)
        m.timer.max_timeout ∧
    (∀ (m2 : RetransmitManager) (s now : Nat),
      ((m2.acknowledge s now).1).isSome = true →
      ((m2.acknowledge s now).2).timer.current_timeout =
        ((m2.acknowledge s now).2).timer.base_timeout) := by
  constructor
  · cases ts with
    | nil => exact absurd rfl hne
    | cons t ts2 =>
      obtain ⟨hpos, hab2⟩ := hab
      have htimer : (m.check_timeouts t).1.timer = m.timer.backoff :=
        check_timeouts_timer_pos m t hpos
      have hstep : (m.check_timeouts t).1.timer.current_timeout =
          min (m.timer.base_timeout * m.timer.backoff_factor ^ 1)
            m.timer.max_timeout := by
        rw [htimer, backoff_current _ hmax, hcur, pow_one]
      have hfields : (m.check_timeouts t).1.timer.base_timeout = m.timer.base_timeout ∧
          (m.check_timeouts t).1.timer.max_timeout = m.timer.max_timeout ∧
          (m.check_timeouts t).1.timer.backoff_factor = m.timer.backoff_factor := by
        rw [htimer]
        exact ⟨rfl, rfl, rfl⟩
      have hih := checkRun_current ts2 (m.check_timeouts t).1 1 hab2
        (by rw [hfields.2.1]; exact hmax)
        (by rw [hstep, hfields.1, hfields.2.1, hfields.2.2])
      have hrun : checkRun m (t :: ts2) = checkRun (m.check_timeouts t).1 ts2 := rfl
      rw [hrun, hih.1, hfields.1, hfields.2.1, hfields.2.2]
      have : 1 + ts2.length = (t :: ts2).length := by simp; omega
      rw [this]
  · intro m2 s now h
    unfold RetransmitManager.acknowledge at h ⊢
    cases haux : acknowledgeAux s now m2.pending with
    | none => rw [haux] at h; simp at h
    | some r =>
      obtain ⟨l, rtt⟩ := r
      rfl

/-- A concrete manager with one registered entry whose single allowed
attempt is already used (`max_attempts = 1`). -/
def c5mgr : RetransmitManager :=
  match (RetransmitManager.new 2 1 (RetransmitTimer.new 100 1000 2)).register 0 0 with
  | .ok m => m
  | .error _ => RetransmitManager.new 2 1 (RetransmitTimer.new 100 1000 2)

/-- C5 counterexample: at `t = 100` the entry has expired (the callback
list is nonempty), yet because the expired entry had exceeded its attempt
budget the code performs no backoff: the current timeout stays at the base
100 ms, while the claim's formula for `k = 1` demands 200 ms. -/
theorem check_timeouts_expired_exceeded_no_backoff :
    (c5mgr.check_timeouts 100).2.2 ≠ [] ∧
    (c5mgr.check_timeouts 100).1.timer.current_timeout = 100 ∧
    min (c5mgr.timer.base_timeout * c5mgr.timer.backoff_factor ^ 1)
      c5mgr.timer.max_timeout = 200 := by decide

/-- A concrete manager with one registered entry and attempts to spare. -/
def c5wit : RetransmitManager :=
  match (RetransmitManager.new 2 5 (RetransmitTimer.new 100 1000 2)).register 0 0 with
  | .ok m => m
  | .error _ => RetransmitManager.new 2 5 (RetransmitTimer.new 100 1000 2)

/-- Witness for the amended backoff formula at one expired call. -/
theorem retransmit_backoff_formula_witness :
    (c5wit.timer.current_timeout = c5wit.timer.base_timeout ∧
      c5wit.timer.max_timeout ≤ U64MAX ∧ ([100] : List Nat) ≠ [] ∧
      allBackoff c5wit [100]) ∧
    ((checkRun c5wit [100]).timer.current_timeout =
      min (c5wit.timer.base_timeout *
        c5wit.timer.backoff_factor ^ ([100] : List Nat).length)
        c5wit.timer.max_timeout ∧
    (∀ (m2 : RetransmitManager) (s now : Nat),
      ((m2.acknowledge s now).1).isSome = true →
      ((m2.acknowledge s now).2).timer.current_timeout =
        ((m2.acknowledge s now).2).timer.base_timeout)) :=
  ⟨⟨by decide, by decide, by decide, ⟨by decide, trivial⟩⟩,
    retransmit_backoff_formula c5wit [100] (by decide) (by decide) (by decide)
      ⟨by decide, trivial⟩⟩

/-! ### C6: exactness of `acknowledge_cumulative` -/

/-- The `pending`-list effect of one `acknowledge` call. -/
def ackPendingStep (now : Nat) (l : List PendingFrame) (s : Nat) : List PendingFrame :=
  match acknowledgeAux s now l with
  | some r => r.1
  | none => l

lemma acknowledge_snd_pending (m : RetransmitManager) (s now : Nat) :
    ((m.acknowledge s now).2).pending = ackPendingStep now m.pending s := by
  unfold RetransmitManager.acknowledge ackPendingStep
  cases hx : acknowledgeAux s now m.pending with
  | none => rfl
  | some r =>
    obtain ⟨l, rtt⟩ := r
    rfl

lemma foldAck_pending (seqs : List Nat) : ∀ (m : RetransmitManager) (now : Nat),
    (seqs.foldl (fun mm s => (mm.acknowledge s now).2) m).pending =
      seqs.foldl (ackPendingStep now) m.pending := by
  induction seqs with
  | nil => intro m now; rfl
  | cons s seqs ih =>
    intro m now
    simp only [List.foldl_cons]
    rw [ih, acknowledge_snd_pending]

lemma toAck_eq (N : Nat) : ∀ (l : List PendingFrame) (acc : List Nat),
    acc.length + (l.filter
      (fun e => decide (e.active = true ∧ wsub32 N e.sequence < 2147483647))).length ≤ 64 →
    l.foldl (fun acc e =>
      if e.active = true ∧ wsub32 N e.sequence < 0x7FFFFFFF then
        (if acc.length < 64 then acc ++ [e.sequence] else acc)
      else acc) acc =
    acc ++ (l.filter
      (fun e => decide (e.active = true ∧ wsub32 N e.sequence < 2147483647))).map
        (fun e => e.sequence) := by
  intro l
  induction l with
  | nil => intro acc h; simp
  | cons e es ih =>
    intro acc h
    by_cases hc : e.active = true ∧ wsub32 N e.sequence < 2147483647
    · have hflen : ((e :: es).filter
          (fun e => decide (e.active = true ∧ wsub32 N e.sequence < 2147483647))).length =
          (es.filter
            (fun e => decide (e.active = true ∧ wsub32 N e.sequence < 2147483647))).length + 1 := by
        rw [List.filter_cons_of_pos (by simpa using hc)]
        rfl
      have hlen : acc.length < 64 := by omega
      simp only [List.foldl_cons, if_pos hc, if_pos hlen]
      have hb : (acc ++ [e.sequence]).length + (es.filter
          (fun e => decide (e.active = true ∧ wsub32 N e.sequence < 2147483647))).length ≤ 64 := by
        rw [List.length_append]
        simp only [List.length_cons, List.length_nil]
        omega
      rw [ih (acc ++ [e.sequence]) hb]
      rw [List.filter_cons_of_pos (by simpa using hc)]
      simp
    · simp only [List.foldl_cons, if_neg hc]
      rw [ih acc (by rw [List.filter_cons_of_neg (by simpa using hc)] at h; exact h)]
      rw [List.filter_cons_of_neg (by simpa using hc)]

lemma foldAck_cons_skip (now : Nat) : ∀ (seqs : List Nat) (e : PendingFrame)
    (es : List PendingFrame),
    (∀ s ∈ seqs, ¬(e.active = true ∧ e.sequence = s)) →
    seqs.foldl (ackPendingStep now) (e :: es) = e :: seqs.foldl (ackPendingStep now) es := by
  intro seqs
  induction seqs with
  | nil => intro e es _; rfl
  | cons s seqs ih =>
    intro e es h
    have hstep : ackPendingStep now (e :: es) s = e :: ackPendingStep now es s := by
      unfold ackPendingStep
      simp only [acknowledgeAux]
      rw [if_neg (h s (by simp))]
      cases hx : acknowledgeAux s now es with
      | none => simp
      | some r =>
        obtain ⟨l, rtt⟩ := r
        simp
    simp only [List.foldl_cons, hstep]
    exact ih e _ (fun s2 hs2 => h s2 (by simp [hs2]))

lemma foldAck_filter (now N : Nat) : ∀ (l : List PendingFrame),
    ((l.filter
      (fun e => decide (e.active = true ∧ wsub32 N e.sequence < 2147483647))).map
        (fun e => e.sequence)).foldl (ackPendingStep now) l =
    l.map (fun e =>
      if e.active = true ∧ wsub32 N e.sequence < 2147483647 then
        { e with active := false }
      else e) := by
  intro l
  induction l with
  | nil => rfl
  | cons e es ih =>
    by_cases hc : e.active = true ∧ wsub32 N e.sequence < 2147483647
    · rw [List.filter_cons_of_pos (by simpa using hc)]
      simp only [List.map_cons, List.foldl_cons]
      have hstep : ackPendingStep now (e :: es) e.sequence =
          { e with active := false } :: es := by
        unfold ackPendingStep
        simp only [acknowledgeAux]
        rw [if_pos ⟨hc.1, by trivial⟩]
      rw [hstep, foldAck_cons_skip now _ _ _ (fun s hs => by simp), ih]
      simp [hc]
    · rw [List.filter_cons_of_neg (by simpa using hc)]
      have hskip : ∀ s ∈ (es.filter
          (fun e2 => decide (e2.active = true ∧ wsub32 N e2.sequence < 2147483647))).map
            (fun e2 => e2.sequence), ¬(e.active = true ∧ e.sequence = s) := by
        intro s hs
        obtain ⟨e2, he2f, rfl⟩ := List.mem_map.mp hs
        have hc2 : e2.active = true ∧ wsub32 N e2.sequence < 2147483647 := by
          simpa using (List.mem_filter.mp he2f).2
        rintro ⟨hea, heq⟩
        exact hc ⟨hea, by rw [heq]; exact hc2.2⟩
      rw [foldAck_cons_skip now _ _ _ hskip, ih]
      simp [hc]

/-- C6 (amended): `acknowledge_cumulative(N, t)` deactivates exactly those
pending (active) entries whose sequence satisfies
`0 ≤ signed_diff(N, seq) < 0x7FFFFFFF` — the boundary value
`signed_diff = 0x7FFFFFFF` is NOT retired, because the code tests the
wrapping difference with a strict `< 0x7FFFFFFF` — provided at most 64
entries match (the collection buffer is a capacity-64 `heapless::Vec`
whose overflowing pushes are silently dropped). -/
theorem acknowledge_cumulative_exact (m : RetransmitManager) (N now : Nat)
    (hcap : (m.pending.filter
      (fun e => decide (e.active = true ∧ wsub32 N e.sequence < 2147483647))).length ≤ 64) :
    (m.acknowledge_cumulative N now).pending =
      m.pending.map (fun e =>
        if e.active = true ∧ wsub32 N e.sequence < 2147483647 then
          { e with active := false }
        else e) := by
  unfold RetransmitManager.acknowledge_cumulative
  rw [foldAck_pending, toAck_eq N m.pending [] (by simpa using hcap)]
  simpa using foldAck_filter now N m.pending

/-- A concrete manager with one registered active entry of sequence 0. -/
def c6mgr : RetransmitManager :=
  match (RetransmitManager.new 2 5 (RetransmitTimer.new 100 1000 2)).register 0 0 with
  | .ok m => m
  | .error _ => RetransmitManager.new 2 5 (RetransmitTimer.new 100 1000 2)

/-- C6 counterexample: the entry with sequence 0 is pending and the ACK
value `0x7FFFFFFF` has signed 32-bit difference `0x7FFFFFFF ≥ 0` from it
(its wrapping difference is below `2^31`), so the claim demands it be
retired; but after `acknowledge_cumulative(0x7FFFFFFF)` the entry is still
active, because the code's test `diff < 0x7FFFFFFF` is strict. -/
theorem acknowledge_cumulative_boundary_not_retired :
    (c6mgr.pending.getD 0 default).active = true ∧
    wsub32 2147483647 (c6mgr.pending.getD 0 default).sequence < 2147483648 ∧
    ((c6mgr.acknowledge_cumulative 2147483647 0).pending.getD 0 default).active = true := by
  decide

/-- Witness for the exactness theorem at a concrete manager and ACK 1. -/
theorem acknowledge_cumulative_exact_witness :
    ((c6mgr.pending.filter
      (fun e => decide (e.active = true ∧ wsub32 1 e.sequence < 2147483647))).length ≤ 64) ∧
    (c6mgr.acknowledge_cumulative 1 0).pending =
      c6mgr.pending.map (fun e =>
        if e.active = true ∧ wsub32 1 e.sequence < 2147483647 then
          { e with active := false }
        else e) :=
  ⟨by decide, acknowledge_cumulative_exact c6mgr 1 0 (by decide)⟩

/-! ## Send window (`buffer/window.rs`) -/

/-- Entry of the send window (`WindowEntry<F>`): the fixed `[u8; F]` data
array is modelled as a byte list of length `F`. -/
structure WindowEntry where
  data : List Nat
  size : Nat
  sequence : Nat
  sent_time : Nat
  transmit_count : Nat
  in_use : Bool
  acked : Bool
  deriving DecidableEq

/-- `WindowEntry::new` for data capacity `F`. -/
def WindowEntry.new (F : Nat) : WindowEntry :=
  ⟨List.replicate F 0, 0, 0, 0, 0, false, false⟩

instance : Inhabited WindowEntry := ⟨WindowEntry.new 0⟩

/-- `WindowEntry::frame_data`. -/
def WindowEntry.frame_data (e : WindowEntry) : List Nat := e.data.take e.size

/-- The send window (`SendWindow<W, F>`): the `entries` array of length
`W` is modelled as a list. -/
structure SendWindow where
  entries : List WindowEntry
  base_seq : Nat
  next_seq : Nat
  in_flight : Nat
  window_size : Nat
  deriving DecidableEq

/-- `SendWindow::new` for capacities `W` and `F`. -/
def SendWindow.new (W F window_size initial_seq : Nat) : SendWindow :=
  ⟨List.replicate W (WindowEntry.new F), initial_seq, initial_seq, 0,
    min window_size W⟩

/-- `SendWindow::add_frame` with entry capacity `F` (the `F` const
generic): stores the frame bytes at slot `next_seq % W` (the array keeps
its old bytes past the copied prefix), bumps `next_seq` (wrapping u32) and
`in_flight`. -/
def SendWindow.add_frame (w : SendWindow) (F : Nat) (frame_data : List Nat)
    (sent_time : Nat) : Except Error (Nat × SendWindow) :=
  if w.window_size ≤ w.in_flight then .error .windowFull
  else if F < frame_data.length then .error .payloadTooLarge
  else
    let seq := w.next_seq
    let index := seq % w.entries.length
    let old := w.entries.getD index default
    let entry : WindowEntry :=
      { data := frame_data ++ old.data.drop frame_data.length,
        size := frame_data.length, sequence := seq, sent_time := sent_time,
        transmit_count := 1, in_use := true, acked := false }
    .ok (seq, { w with
      entries := w.entries.set index entry,
      next_seq := (w.next_seq + 1) % 4294967296,
      in_flight := w.in_flight + 1 })

/-- The loop of `SendWindow::ack_cumulative`, with explicit fuel.  The
Rust loop advances `base_seq` by one (wrapping u32) per iteration and
stops when it reaches `next_seq`, so `wrapping_sub(next_seq, base_seq)`
iterations always suffice; retired entries are marked acked and freed and
`in_flight` is decremented with saturation. -/
def ackCumLoop (ack_seq : Nat) : Nat → SendWindow → Nat → SendWindow × Nat
  | 0, w, acked => (w, acked)
  | fuel + 1, w, acked =>
    if w.base_seq = w.next_seq then (w, acked)
    else if 0x7FFFFFFF < wsub32 ack_seq w.base_seq then (w, acked)
    else
      let index := w.base_seq % w.entries.length
      let e := w.entries.getD index default
      if e.in_use = true ∧ e.acked = false then
        ackCumLoop ack_seq fuel
          { w with
            entries := w.entries.set index { e with acked := true, in_use := false },
            base_seq := (w.base_seq + 1) % 4294967296,
            in_flight := w.in_flight - 1 }
          (acked + 1)
      else
        ackCumLoop ack_seq fuel
          { w with base_seq := (w.base_seq + 1) % 4294967296 } acked

/-- `SendWindow::ack_cumulative`: returns the window and the number of
frames acknowledged. -/
def SendWindow.ack_cumulative (w : SendWindow) (ack_seq : Nat) : SendWindow × Nat :=
  ackCumLoop ack_seq (wsub32 w.next_seq w.base_seq) w 0

/-- `SendWindow::ack_selective`: marks one in-range entry acked without
advancing the base or touching `in_flight`. -/
def SendWindow.ack_selective (w : SendWindow) (seq : Nat) : Bool × SendWindow :=
  let diff := wsub32 seq w.base_seq
  if 0x7FFFFFFF < diff ∨ w.window_size ≤ diff then (false, w)
  else
    let index := seq % w.entries.length
    let e := w.entries.getD index default
    if e.in_use = true ∧ e.sequence = seq ∧ e.acked = false then
      (true, { w with entries := w.entries.set index { e with acked := true } })
    else (false, w)

/-- `SendWindow::mark_retransmitted`. -/
def SendWindow.mark_retransmitted (w : SendWindow) (seq sent_time : Nat) :
    Except Error SendWindow :=
  let diff := wsub32 seq w.base_seq
  if 0x7FFFFFFF < diff ∨ w.window_size ≤ diff then .error .sequenceOutOfRange
  else
    let index := seq % w.entries.length
    let e := w.entries.getD index default
    if e.in_use = true ∧ e.sequence = seq then
      let e2 := { e with transmit_count := (e.transmit_count + 1) % 256, sent_time := sent_time }
      .ok { w with entries := w.entries.set index e2 }
    else .error .sequenceOutOfRange

/-- `SendWindow::get_entry`. -/
def SendWindow.get_entry (w : SendWindow) (seq : Nat) : Option WindowEntry :=
  let diff := wsub32 seq w.base_seq
  if 0x7FFFFFFF < diff ∨ w.window_size ≤ diff then none
  else
    let e := w.entries.getD (seq % w.entries.length) default
    if e.in_use = true ∧ e.sequence = seq then some e else none

/-- Reachable-state invariant of the send window for a power-of-two slot
count: the in-flight frames occupy the `in_flight` consecutive wrapping
sequence numbers from `base_seq`, each stored in its own slot
`seq % W`, in use, unacked and carrying its sequence number; every other
slot is free; `in_flight` matches both the sequence span and the count of
in-use unacked entries. -/
def SendWindow.WF (w : SendWindow) : Prop :=
  0 < w.entries.length ∧
  w.entries.length ∣ 4294967296 ∧
  w.window_size ≤ w.entries.length ∧
  w.window_size ≤ 2147483648 ∧
  w.base_seq < 4294967296 ∧
  w.next_seq < 4294967296 ∧
  w.in_flight ≤ w.window_size ∧
  w.in_flight = wsub32 w.next_seq w.base_seq ∧
  (∀ j, j < w.in_flight →
    (w.entries.getD ((w.base_seq + j) % w.entries.length) default).in_use = true ∧
    (w.entries.getD ((w.base_seq + j) % w.entries.length) default).acked = false ∧
    (w.entries.getD ((w.base_seq + j) % w.entries.length) default).sequence =
      (w.base_seq + j) % 4294967296) ∧
  (∀ i, i < w.entries.length →
    (∀ j, j < w.in_flight → (w.base_seq + j) % w.entries.length ≠ i) →
    (w.entries.getD i default).in_use = false) ∧
  w.in_flight = w.entries.countP (fun e => e.in_use && !e.acked)

instance (w : SendWindow) : Decidable w.WF := by
  unfold SendWindow.WF
  infer_instance

section ListHelpers

variable {α : Type}

lemma getD_set_self (l : List α) (i : Nat) (a d : α) (h : i < l.length) :
    (l.set i a).getD i d = a := by
  induction l generalizing i with
  | nil => simp at h
  | cons b t ih =>
    cases i with
    | zero => rfl
    | succ i => exact ih i (by simpa using h)

lemma getD_set_ne (l : List α) (i j : Nat) (a d : α) (h : i ≠ j) :
    (l.set i a).getD j d = l.getD j d := by
  induction l generalizing i j with
  | nil => rfl
  | cons b t ih =>
    cases i with
    | zero =>
      cases j with
      | zero => exact absurd rfl h
      | succ j => rfl
    | succ i =>
      cases j with
      | zero => rfl
      | succ j => exact ih i j (by omega)

lemma getD_replicate (n i : Nat) (a d : α) (h : i < n) :
    (List.replicate n a).getD i d = a := by
  induction n generalizing i with
  | zero => omega
  | succ n ih =>
    cases i with
    | zero => rfl
    | succ i => exact ih i (by omega)

lemma countP_replicate_false (n : Nat) (a : α) (p : α → Bool) (h : p a = false) :
    (List.replicate n a).countP p = 0 := by
  induction n with
  | zero => rfl
  | succ n ih => simp [List.replicate_succ, List.countP_cons, ih, h]

lemma countP_set_false_true (l : List α) (i : Nat) (a d : α) (p : α → Bool)
    (hi : i < l.length) (hold : p (l.getD i d) = false) (hnew : p a = true) :
    (l.set i a).countP p = l.countP p + 1 := by
  induction l generalizing i with
  | nil => simp at hi
  | cons b t ih =>
    cases i with
    | zero =>
      have hb : p b = false := hold
      simp [List.countP_cons, hb, hnew]
    | succ i =>
      have := ih i (by simpa using hi) hold
      simp only [List.set_cons_succ, List.countP_cons, this]
      omega

lemma countP_set_true_false (l : List α) (i : Nat) (a d : α) (p : α → Bool)
    (hi : i < l.length) (hold : p (l.getD i d) = true) (hnew : p a = false) :
    (l.set i a).countP p + 1 = l.countP p := by
  induction l generalizing i with
  | nil => simp at hi
  | cons b t ih =>
    cases i with
    | zero =>
      have hb : p b = true := hold
      simp [List.countP_cons, hb, hnew]
    | succ i =>
      have := ih i (by simpa using hi) hold
      simp only [List.set_cons_succ, List.countP_cons]
      omega

lemma countP_set_same (l : List α) (i : Nat) (a d : α) (p : α → Bool)
    (h : p (l.getD i d) = p a) :
    (l.set i a).countP p = l.countP p := by
  induction l generalizing i with
  | nil => rfl
  | cons b t ih =>
    cases i with
    | zero =>
      have hb : p b = p a := h
      simp [List.countP_cons, hb]
    | succ i =>
      have := ih i h
      simp only [List.set_cons_succ, List.countP_cons, this]

end ListHelpers

lemma addmod_mod {M W : Nat} (hdvd : W ∣ M) (a b : Nat) :
    (a % M + b) % W = (a + b) % W := by
  rw [Nat.add_mod, Nat.mod_mod_of_dvd a hdvd, ← Nat.add_mod]

lemma slot_inj {W : Nat} (a j1 j2 : Nat) (h1 : j1 < W) (h2 : j2 < W)
    (h : (a + j1) % W = (a + j2) % W) : j1 = j2 := by
  have hm : j1 ≡ j2 [MOD W] := Nat.ModEq.add_left_cancel (Nat.ModEq.refl a) h
  have := hm.eq_of_lt_of_lt h1 h2
  exact this

lemma send_window_new_WF (W F window_size initial_seq : Nat)
    (hdvd : W ∣ 4294967296) (hW : 0 < W) (hW31 : W ≤ 2147483648)
    (hinit : initial_seq < 4294967296) :
    (SendWindow.new W F window_size initial_seq).WF := by
  unfold SendWindow.new SendWindow.WF
  simp only [List.length_replicate]
  refine ⟨hW, hdvd, min_le_right _ _, le_trans (min_le_right _ _) hW31, hinit, hinit,
    Nat.zero_le _, ?_, ?_, ?_, ?_⟩
  · unfold wsub32
    omega
  · intro j hj
    omega
  · intro i hi _
    rw [getD_replicate _ _ _ _ hi]
    rfl
  · rw [countP_replicate_false]
    rfl

lemma add_frame_ok_WF (w : SendWindow) (F : Nat) (fd : List Nat) (t : Nat)
    (seq : Nat) (w2 : SendWindow) (hwf : w.WF)
    (h : w.add_frame F fd t = .ok (seq, w2)) : w2.WF := by
  obtain ⟨hW, hdvd, hws, hws31, hbase, hnext, hLws, hLsub, hwin, hnonwin, hcount⟩ := hwf
  unfold SendWindow.add_frame at h
  by_cases hfull : w.window_size ≤ w.in_flight
  · rw [if_pos hfull] at h
    exact absurd h (by simp)
  rw [if_neg hfull] at h
  by_cases hflen : F < fd.length
  · rw [if_pos hflen] at h
    exact absurd h (by simp)
  rw [if_neg hflen] at h
  simp only [Except.ok.injEq, Prod.mk.injEq] at h
  obtain ⟨hseq, hw2⟩ := h
  have hfull2 : w.in_flight < w.window_size := lt_of_not_le hfull
  have hLW : w.in_flight < w.entries.length := lt_of_lt_of_le hfull2 hws
  have hnexteq : w.next_seq = (w.base_seq + w.in_flight) % 4294967296 := by
    unfold wsub32 at hLsub
    omega
  have hidx : w.next_seq % w.entries.length =
      (w.base_seq + w.in_flight) % w.entries.length := by
    rw [hnexteq, Nat.mod_mod_of_dvd _ hdvd]
  have hidxlt : w.next_seq % w.entries.length < w.entries.length := Nat.mod_lt _ hW
  have hdistinct : ∀ j, j < w.in_flight →
      (w.base_seq + j) % w.entries.length ≠ w.next_seq % w.entries.length := by
    intro j hj heq
    rw [hidx] at heq
    have := slot_inj w.base_seq j w.in_flight (lt_trans hj hLW) hLW heq
    omega
  have holdfree : (w.entries.getD (w.next_seq % w.entries.length) default).in_use = false :=
    hnonwin _ hidxlt (fun j hj => hdistinct j hj)
  rw [← hw2]
  unfold SendWindow.WF
  dsimp only
  simp only [List.length_set]
  refine ⟨hW, hdvd, hws, hws31, hbase, Nat.mod_lt _ (by omega), by omega, ?_, ?_, ?_, ?_⟩
  · unfold wsub32
    unfold wsub32 at hLsub
    omega
  · intro j hj
    by_cases hjL : j < w.in_flight
    · rw [getD_set_ne _ _ _ _ _ (fun he => hdistinct j hjL he.symm)]
      exact hwin j hjL
    · have hjeq : j = w.in_flight := by omega
      subst hjeq
      rw [← hidx, getD_set_self _ _ _ _ hidxlt]
      exact ⟨rfl, rfl, hnexteq⟩
  · intro i hi hnone
    have hne : w.next_seq % w.entries.length ≠ i := by
      have := hnone w.in_flight (by omega)
      rw [← hidx] at this
      exact this
    rw [getD_set_ne _ _ _ _ _ hne]
    exact hnonwin i hi (fun j hj => hnone j (by omega))
  · rw [countP_set_false_true _ _ _ default _ hidxlt
      (by simp only [holdfree, Bool.false_and]) (by simp)]
    omega

lemma ackCumLoop_spec (N : Nat) : ∀ (fuel : Nat) (w : SendWindow) (acked : Nat),
    w.WF → fuel = w.in_flight →
    ∃ K, K ≤ w.in_flight ∧
      (ackCumLoop N fuel w acked).2 = acked + K ∧
      (ackCumLoop N fuel w acked).1.base_seq = (w.base_seq + K) % 4294967296 ∧
      (ackCumLoop N fuel w acked).1.next_seq = w.next_seq ∧
      (ackCumLoop N fuel w acked).1.in_flight = w.in_flight - K ∧
      (ackCumLoop N fuel w acked).1.window_size = w.window_size ∧
      (ackCumLoop N fuel w acked).1.entries.length = w.entries.length ∧
      (∀ j, j < K → wsub32 N ((w.base_seq + j) % 4294967296) ≤ 0x7FFFFFFF) ∧
      (K < w.in_flight → 0x7FFFFFFF < wsub32 N ((w.base_seq + K) % 4294967296)) ∧
      (∀ j, j < K →
        (ackCumLoop N fuel w acked).1.entries.getD
            ((w.base_seq + j) % w.entries.length) default =
          { w.entries.getD ((w.base_seq + j) % w.entries.length) default with
            acked := true, in_use := false }) ∧
      (∀ i, (∀ j, j < K → (w.base_seq + j) % w.entries.length ≠ i) →
        (ackCumLoop N fuel w acked).1.entries.getD i default =
          w.entries.getD i default) ∧
      (ackCumLoop N fuel w acked).1.WF := by
  intro fuel
  induction fuel with
  | zero =>
    intro w acked hwf hfuel
    obtain ⟨hW, hdvd, hws, hws31, hbase, hnext, hLws, hLsub, hwin, hnonwin, hcount⟩ := hwf
    refine ⟨0, Nat.zero_le _, rfl, ?_, rfl, rfl, rfl, rfl,
      fun j hj => absurd hj (by omega),
      fun hk => absurd hk (by omega),
      fun j hj => absurd hj (by omega),
      fun i _ => rfl,
      ⟨hW, hdvd, hws, hws31, hbase, hnext, hLws, hLsub, hwin, hnonwin, hcount⟩⟩
    show w.base_seq = (w.base_seq + 0) % 4294967296
    omega
  | succ fuel ih =>
    intro w acked hwf hfuel
    obtain ⟨hW, hdvd, hws, hws31, hbase, hnext, hLws, hLsub, hwin, hnonwin, hcount⟩ := hwf
    have hL1 : 0 < w.in_flight := by omega
    have hbne : ¬ w.base_seq = w.next_seq := by
      intro he
      unfold wsub32 at hLsub
      omega
    by_cases hstop : 0x7FFFFFFF < wsub32 N w.base_seq
    · simp only [ackCumLoop]
      rw [if_neg hbne, if_pos hstop]
      refine ⟨0, Nat.zero_le _, rfl, ?_, rfl, rfl, rfl, rfl,
        fun j hj => absurd hj (by omega),
        fun _ => ?_,
        fun j hj => absurd hj (by omega),
        fun i _ => rfl,
        ⟨hW, hdvd, hws, hws31, hbase, hnext, hLws, hLsub, hwin, hnonwin, hcount⟩⟩
      · show w.base_seq = (w.base_seq + 0) % 4294967296
        omega
      · have hb0 : (w.base_seq + 0) % 4294967296 = w.base_seq := by omega
        rw [hb0]
        exact hstop
    · have hwin0 := hwin 0 hL1
      have hein : (w.entries.getD (w.base_seq % w.entries.length) default).in_use = true :=
        hwin0.1
      have hack0 : (w.entries.getD (w.base_seq % w.entries.length) default).acked = false :=
        hwin0.2.1
      have hslotS : ∀ j : Nat,
          ((w.base_seq + 1) % 4294967296 + j) % w.entries.length =
            (w.base_seq + (1 + j)) % w.entries.length := by
        intro j
        rw [addmod_mod hdvd]
        congr 1
        omega
      have hseqS : ∀ j : Nat,
          ((w.base_seq + 1) % 4294967296 + j) % 4294967296 =
            (w.base_seq + (1 + j)) % 4294967296 := by
        intro j
        rw [addmod_mod (dvd_refl _)]
        congr 1
        omega
      have hne0 : ∀ j : Nat, 0 < j → j < w.entries.length →
          w.base_seq % w.entries.length ≠ (w.base_seq + j) % w.entries.length := by
        intro j hj0 hjW he
        have h0 : (w.base_seq + 0) % w.entries.length = (w.base_seq + j) % w.entries.length := he
        have := slot_inj w.base_seq 0 j hW hjW h0
        omega
      have hidxlt : w.base_seq % w.entries.length < w.entries.length := Nat.mod_lt _ hW
      have hwf2 : SendWindow.WF
          { w with
            entries := w.entries.set (w.base_seq % w.entries.length)
              { w.entries.getD (w.base_seq % w.entries.length) default with
                acked := true, in_use := false },
            base_seq := (w.base_seq + 1) % 4294967296,
            in_flight := w.in_flight - 1 } := by
        unfold SendWindow.WF
        dsimp only
        simp only [List.length_set]
        refine ⟨hW, hdvd, hws, hws31, Nat.mod_lt _ (by omega), hnext, by omega, ?_, ?_, ?_, ?_⟩
        · unfold wsub32
          unfold wsub32 at hLsub
          omega
        · intro j hj
          rw [hslotS j, getD_set_ne _ _ _ _ _ (hne0 (1 + j) (by omega) (by omega))]
          have hw1j := hwin (1 + j) (by omega)
          exact ⟨hw1j.1, hw1j.2.1, by rw [hseqS j]; exact hw1j.2.2⟩
        · intro i hi hnone
          by_cases hieq : i = w.base_seq % w.entries.length
          · subst hieq
            rw [getD_set_self _ _ _ _ hidxlt]
          · rw [getD_set_ne _ _ _ _ _ (fun he => hieq he.symm)]
            refine hnonwin i hi ?_
            intro j hj
            cases j with
            | zero =>
              intro he
              exact hieq ((by simpa using he.symm))
            | succ j2 =>
              have := hnone j2 (by omega)
              rw [hslotS j2] at this
              have harr : w.base_seq + (1 + j2) = w.base_seq + Nat.succ j2 := by omega
              rw [harr] at this
              exact this
        · have hgoal := countP_set_true_false w.entries (w.base_seq % w.entries.length)
            { w.entries.getD (w.base_seq % w.entries.length) default with
              acked := true, in_use := false } default
            (fun e => e.in_use && !e.acked) hidxlt
            (by simp only [hein, hack0]; rfl) (by rfl)
          dsimp only at hgoal
          omega
      obtain ⟨K2, hK2le, hackF, hbaseF, hnextF, hflF, hwsF, hlenF, hcondF, hstopF,
        hretF, hunchF, hwfF⟩ :=
        ih _ (acked + 1) hwf2 (by dsimp only; omega)
      simp only [ackCumLoop]
      rw [if_neg hbne, if_neg hstop, if_pos ⟨hein, hack0⟩]
      simp only [List.length_set] at *
      refine ⟨K2 + 1, by omega, ?_, ?_, ?_, ?_, ?_, ?_, ?_, ?_, ?_, ?_, ?_⟩
      · rw [hackF]
        omega
      · rw [hbaseF]
        rw [hseqS K2]
        congr 1
        omega
      · exact hnextF
      · rw [hflF]
        omega
      · exact hwsF
      · rw [hlenF]
      · intro j hj
        cases j with
        | zero =>
          have hb0 : (w.base_seq + 0) % 4294967296 = w.base_seq := by omega
          rw [hb0]
          omega
        | succ j2 =>
          have := hcondF j2 (by omega)
          rw [hseqS j2] at this
          have harr : w.base_seq + (1 + j2) = w.base_seq + Nat.succ j2 := by omega
          rw [harr] at this
          exact this
      · intro hKL
        have := hstopF (by omega)
        rw [hseqS K2] at this
        have harr : w.base_seq + (1 + K2) = w.base_seq + (K2 + 1) := by omega
        rw [harr] at this
        exact this
      · intro j hj
        cases j with
        | zero =>
          have hunch0 := hunchF (w.base_seq % w.entries.length) ?_
          · rw [show (w.base_seq + 0) % w.entries.length = w.base_seq % w.entries.length from rfl]
            rw [hunch0, getD_set_self _ _ _ _ hidxlt]
          · intro j2 hj2
            rw [hslotS j2]
            exact fun he => hne0 (1 + j2) (by omega) (by omega) he.symm
        | succ j2 =>
          have hr := hretF j2 (by omega)
          rw [hslotS j2] at hr
          have harr : w.base_seq + (1 + j2) = w.base_seq + Nat.succ j2 := by omega
          rw [harr] at hr
          rw [hr, getD_set_ne _ _ _ _ _ (hne0 (Nat.succ j2) (by omega) (by omega))]
      · intro i hnone
        have h0 := hnone 0 (by omega)
        have hne : w.base_seq % w.entries.length ≠ i := by
          simpa using h0
        have hu := hunchF i ?_
        · rw [hu, getD_set_ne _ _ _ _ _ hne]
        · intro j2 hj2
          rw [hslotS j2]
          have := hnone (Nat.succ j2) (by omega)
          have harr : w.base_seq + (1 + j2) = w.base_seq + Nat.succ j2 := by omega
          rw [harr]
          exact this
      · exact hwfF

lemma mark_ok_WF (w : SendWindow) (seq t : Nat) (w2 : SendWindow) (hwf : w.WF)
    (h : w.mark_retransmitted seq t = .ok w2) : w2.WF := by
  obtain ⟨hW, hdvd, hws, hws31, hbase, hnext, hLws, hLsub, hwin, hnonwin, hcount⟩ := hwf
  simp only [SendWindow.mark_retransmitted] at h
  by_cases hrange : 0x7FFFFFFF < wsub32 seq w.base_seq ∨
      w.window_size ≤ wsub32 seq w.base_seq
  · rw [if_pos hrange] at h
    exact absurd h (by simp)
  rw [if_neg hrange] at h
  by_cases hfound : (w.entries.getD (seq % w.entries.length) default).in_use = true ∧
      (w.entries.getD (seq % w.entries.length) default).sequence = seq
  · rw [if_pos hfound] at h
    simp only [Except.ok.injEq] at h
    rw [← h]
    unfold SendWindow.WF
    dsimp only
    simp only [List.length_set]
    have hidxlt : seq % w.entries.length < w.entries.length := Nat.mod_lt _ hW
    refine ⟨hW, hdvd, hws, hws31, hbase, hnext, hLws, hLsub, ?_, ?_, ?_⟩
    · intro j hj
      by_cases hieq : seq % w.entries.length = (w.base_seq + j) % w.entries.length
      · rw [← hieq, getD_set_self _ _ _ _ hidxlt]
        have hw := hwin j hj
        rw [← hieq] at hw
        exact ⟨hw.1, hw.2.1, hw.2.2⟩
      · rw [getD_set_ne _ _ _ _ _ hieq]
        exact hwin j hj
    · intro i hi hnone
      by_cases hieq : seq % w.entries.length = i
      · have hfree := hnonwin i hi hnone
        rw [← hieq] at hfree
        rw [hfound.1] at hfree
        simp at hfree
      · rw [getD_set_ne _ _ _ _ _ hieq]
        exact hnonwin i hi hnone
    · exact hcount.trans (countP_set_same w.entries (seq % w.entries.length)
        { data := (w.entries.getD (seq % w.entries.length) default).data,
          size := (w.entries.getD (seq % w.entries.length) default).size,
          sequence := (w.entries.getD (seq % w.entries.length) default).sequence,
          sent_time := t,
          transmit_count :=
            ((w.entries.getD (seq % w.entries.length) default).transmit_count + 1) % 256,
          in_use := (w.entries.getD (seq % w.entries.length) default).in_use,
          acked := (w.entries.getD (seq % w.entries.length) default).acked }
        default (fun e => e.in_use && !e.acked) rfl).symm
  · rw [if_neg hfound] at h
    exact absurd h (by simp)

lemma ack_cumulative_WF (w : SendWindow) (N : Nat) (hwf : w.WF) :
    (w.ack_cumulative N).1.WF := by
  have hLsub : w.in_flight = wsub32 w.next_seq w.base_seq := hwf.2.2.2.2.2.2.2.1
  obtain ⟨K, h1, h2, h3, h4, h5, h6, h7, h8, h9, h10, h11, hwfF⟩ :=
    ackCumLoop_spec N (wsub32 w.next_seq w.base_seq) w 0 hwf hLsub.symm
  exact hwfF

/-- A send-window operation of the kind quantified over in the claim,
without `ack_selective` (which the counterexample shows breaks the
invariant). -/
inductive WindowOp where
  | add : Nat → List Nat → Nat → WindowOp
  | ackCum : Nat → WindowOp
  | mark : Nat → Nat → WindowOp

/-- Application of one operation to the window (errors leave the window
unchanged, as in the Rust early returns). -/
def applyWindowOp (w : SendWindow) : WindowOp → SendWindow
  | .add F frame_data sent_time =>
    match w.add_frame F frame_data sent_time with
    | .ok r => r.2
    | .error _ => w
  | .ackCum ack_seq => (w.ack_cumulative ack_seq).1
  | .mark seq sent_time =>
    match w.mark_retransmitted seq sent_time with
    | .ok w3 => w3
    | .error _ => w

lemma applyWindowOp_WF (w : SendWindow) (op : WindowOp) (hwf : w.WF) :
    (applyWindowOp w op).WF := by
  cases op with
  | add F fd t =>
    show (match w.add_frame F fd t with
      | .ok r => r.2
      | .error _ => w).WF
    cases hadd : w.add_frame F fd t with
    | ok r =>
      obtain ⟨s1, w3⟩ := r
      exact add_frame_ok_WF w F fd t s1 w3 hwf hadd
    | error e => exact hwf
  | ackCum n => exact ack_cumulative_WF w n hwf
  | mark seq t =>
    show (match w.mark_retransmitted seq t with
      | .ok w3 => w3
      | .error _ => w).WF
    cases hm : w.mark_retransmitted seq t with
    | ok w3 => exact mark_ok_WF w seq t w3 hwf hm
    | error e => exact hwf

lemma foldl_applyWindowOp_WF (ops : List WindowOp) : ∀ w : SendWindow, w.WF →
    (ops.foldl applyWindowOp w).WF := by
  induction ops with
  | nil => intro w hwf; exact hwf
  | cons op ops ih => intro w hwf; exact ih _ (applyWindowOp_WF w op hwf)

/-- C4 (amended): for a send window whose slot count divides `2^32` (the
power-of-two capacity the spec recommends) and any sequence of
`add_frame`, `ack_cumulative` and `mark_retransmitted` operations —
excluding `ack_selective`, which breaks the invariant — after each
operation the `in_flight` counter equals the number of entries that are
in-use and not acked, and `next_sequence − base_sequence ≡ in_flight
(mod 2^32)`. -/
theorem send_window_in_flight_invariant (W F window_size initial_seq : Nat)
    (ops : List WindowOp)
    (hdvd : W ∣ 4294967296) (hW : 0 < W) (hW31 : W ≤ 2147483648)
    (hinit : initial_seq < 4294967296) :
    (ops.foldl applyWindowOp (SendWindow.new W F window_size initial_seq)).in_flight =
      ((ops.foldl applyWindowOp (SendWindow.new W F window_size initial_seq)).entries.countP
        (fun e => e.in_use && !e.acked)) ∧
    ((ops.foldl applyWindowOp (SendWindow.new W F window_size initial_seq)).next_seq +
        4294967296 -
        (ops.foldl applyWindowOp (SendWindow.new W F window_size initial_seq)).base_seq) %
        4294967296 =
      (ops.foldl applyWindowOp (SendWindow.new W F window_size initial_seq)).in_flight %
        4294967296 := by
  have hwf := foldl_applyWindowOp_WF ops _
    (send_window_new_WF W F window_size initial_seq hdvd hW hW31 hinit)
  obtain ⟨_, _, _, hws31, hbase, hnext, hLws, hLsub, _, _, hcount⟩ := hwf
  refine ⟨hcount, ?_⟩
  unfold wsub32 at hLsub
  omega

/-- The state after two `add_frame` calls and one `ack_selective(0)` on a
fresh window of capacity 4. -/
def c4win : SendWindow :=
  let w0 := SendWindow.new 4 8 4 0
  let w1 := match w0.add_frame 8 [7] 0 with
    | .ok r => r.2
    | .error _ => w0
  let w2 := match w1.add_frame 8 [9] 0 with
    | .ok r => r.2
    | .error _ => w1
  (w2.ack_selective 0).2

/-- C4 counterexample: after add_frame, add_frame, ack_selective(0) the
`in_flight` counter is still 2, but only one entry is in use and not
acked — `ack_selective` marks the entry acked without decrementing
`in_flight`, so the claimed invariant fails. -/
theorem ack_selective_breaks_in_flight :
    c4win.in_flight = 2 ∧
    c4win.entries.countP (fun e => e.in_use && !e.acked) = 1 := by decide

/-- Witness for the invariant theorem at a concrete run. -/
theorem send_window_in_flight_invariant_witness :
    ((4:Nat) ∣ 4294967296 ∧ (0:Nat) < 4 ∧ (4:Nat) ≤ 2147483648 ∧
      (0:Nat) < 4294967296) ∧
    (([WindowOp.add 8 [7] 0, WindowOp.ackCum 0,
        WindowOp.mark 0 5].foldl applyWindowOp (SendWindow.new 4 8 4 0)).in_flight =
      (([WindowOp.add 8 [7] 0, WindowOp.ackCum 0,
        WindowOp.mark 0 5].foldl applyWindowOp (SendWindow.new 4 8 4 0)).entries.countP
        (fun e => e.in_use && !e.acked)) ∧
    (([WindowOp.add 8 [7] 0, WindowOp.ackCum 0,
        WindowOp.mark 0 5].foldl applyWindowOp (SendWindow.new 4 8 4 0)).next_seq +
        4294967296 -
        ([WindowOp.add 8 [7] 0, WindowOp.ackCum 0,
        WindowOp.mark 0 5].foldl applyWindowOp (SendWindow.new 4 8 4 0)).base_seq) %
        4294967296 =
      ([WindowOp.add 8 [7] 0, WindowOp.ackCum 0,
        WindowOp.mark 0 5].foldl applyWindowOp (SendWindow.new 4 8 4 0)).in_flight %
        4294967296) :=
  ⟨⟨by decide, by decide, by decide, by decide⟩,
    send_window_in_flight_invariant 4 8 4 0
      [WindowOp.add 8 [7] 0, WindowOp.ackCum 0, WindowOp.mark 0 5]
      (by decide) (by decide) (by decide) (by decide)⟩

lemma filter_range_lt_length (L : Nat) : ∀ K : Nat, K ≤ L →
    ((List.range L).filter (fun j => decide (j < K))).length = K := by
  induction L with
  | zero =>
    intro K hK
    have : K = 0 := by omega
    subst this
    rfl
  | succ L ih =>
    intro K hK
    rw [List.range_succ, List.filter_append]
    by_cases hKL : K ≤ L
    · rw [List.length_append, ih K hKL]
      have : ¬ L < K := by omega
      simp [this]
    · have hKeq : K = L + 1 := by omega
      subst hKeq
      have h1 : (List.range L).filter (fun j => decide (j < L + 1)) = List.range L :=
        List.filter_eq_self.mpr
          (fun a ha => by simpa using Nat.lt_succ_of_lt (List.mem_range.mp ha))
      rw [List.length_append, h1]
      simp

/-- C3 (amended): `ack_cumulative(N)` retires exactly the in-flight
send-window entries whose sequence satisfies `signed_diff(N, seq) ≥ 0`
under signed 32-bit wrap-around comparison — INCLUSIVE: the entry whose
sequence equals `N` IS retired (the code's doc comment and unit test both
state "up to and including") — for any reachable window state with
power-of-two slot count and any ACK value not pathologically more than a
half sequence-space behind the window base; entries outside the in-flight
range are untouched, and the returned count equals the number of retired
entries. -/
theorem ack_cumulative_retires_iff (w : SendWindow) (N : Nat)
    (hwf : w.WF) (hN : N < 4294967296)
    (hreg : wsub32 N w.base_seq < 2147483648 ∨
      2147483647 + w.in_flight ≤ wsub32 N w.base_seq) :
    (∀ j, j < w.in_flight →
      (wsub32 N ((w.base_seq + j) % 4294967296) < 2147483648 →
        (w.ack_cumulative N).1.entries.getD ((w.base_seq + j) % w.entries.length)
            default =
          { w.entries.getD ((w.base_seq + j) % w.entries.length) default with
            acked := true, in_use := false }) ∧
      (2147483648 ≤ wsub32 N ((w.base_seq + j) % 4294967296) →
        (w.ack_cumulative N).1.entries.getD ((w.base_seq + j) % w.entries.length)
            default =
          w.entries.getD ((w.base_seq + j) % w.entries.length) default)) ∧
    (∀ i, (∀ j, j < w.in_flight → (w.base_seq + j) % w.entries.length ≠ i) →
      (w.ack_cumulative N).1.entries.getD i default = w.entries.getD i default) ∧
    (w.ack_cumulative N).2 =
      ((List.range w.in_flight).filter
        (fun j => decide (wsub32 N ((w.base_seq + j) % 4294967296) < 2147483648))).length := by
  have hwfc := hwf
  obtain ⟨hW, hdvd, hws, hws31, hbase, hnext, hLws, hLsub, hwin, hnonwin, hcount⟩ := hwfc
  obtain ⟨K, hKle, hack, hbaseF, hnextF, hflF, hwsF, hlenF, hcond, hstop, hret, hunch, hwfF⟩ :=
    ackCumLoop_spec N (wsub32 w.next_seq w.base_seq) w 0 hwf hLsub.symm
  have hiff : ∀ j, j < w.in_flight →
      (wsub32 N ((w.base_seq + j) % 4294967296) < 2147483648 ↔ j < K) := by
    intro j hj
    constructor
    · intro hcj
      by_contra hnotj
      have hKL : K < w.in_flight := by omega
      have hsK := hstop hKL
      unfold wsub32 at hcj hsK hreg hLsub
      omega
    · intro hjK
      have := hcond j hjK
      omega
  have hdistinctKj : ∀ j j2, j < w.in_flight → j2 < K → j2 ≠ j →
      (w.base_seq + j2) % w.entries.length ≠ (w.base_seq + j) % w.entries.length := by
    intro j j2 hj hj2 hne he
    exact hne (slot_inj w.base_seq j2 j (by omega) (by omega) he)
  refine ⟨?_, ?_, ?_⟩
  · intro j hj
    constructor
    · intro hcj
      exact hret j ((hiff j hj).mp hcj)
    · intro hge
      have hnotK : ¬ j < K := by
        intro hjK
        have := (hiff j hj).mpr hjK
        omega
      exact hunch _ (fun j2 hj2 => hdistinctKj j j2 hj hj2 (by omega))
  · intro i hnone
    exact hunch i (fun j2 hj2 => hnone j2 (by omega))
  · have hfe : (List.range w.in_flight).filter
        (fun j => decide (wsub32 N ((w.base_seq + j) % 4294967296) < 2147483648)) =
        (List.range w.in_flight).filter (fun j => decide (j < K)) := by
      refine List.filter_congr ?_
      intro j hj
      exact decide_eq_decide.mpr (hiff j (List.mem_range.mp hj))
    unfold SendWindow.ack_cumulative
    rw [hfe, filter_range_lt_length _ K (by omega), hack]
    omega

/-- A fresh capacity-4 window holding one in-flight frame of sequence 0. -/
def c3win : SendWindow :=
  let w0 := SendWindow.new 4 8 4 0
  match w0.add_frame 8 [7] 0 with
  | .ok r => r.2
  | .error _ => w0

/-- C3 counterexample: the single in-flight entry has sequence 0 and the
cumulative ACK value is also 0; the claim says an entry whose sequence
equals N is not retired, yet `ack_cumulative(0)` acknowledges one frame
and frees that entry (inclusive semantics, as the code's doc comment "up
to and including" and its unit test state). -/
theorem ack_cumulative_inclusive_boundary :
    (c3win.entries.getD 0 default).sequence = 0 ∧
    (c3win.entries.getD 0 default).in_use = true ∧
    (c3win.ack_cumulative 0).2 = 1 ∧
    ((c3win.ack_cumulative 0).1.entries.getD 0 default).in_use = false ∧
    ((c3win.ack_cumulative 0).1.entries.getD 0 default).acked = true := by decide

/-- Witness for the amended cumulative-ACK theorem at a concrete window. -/
theorem ack_cumulative_retires_iff_witness :
    c3win.WF ∧ (5:Nat) < 4294967296 ∧
    (wsub32 5 c3win.base_seq < 2147483648 ∨
      2147483647 + c3win.in_flight ≤ wsub32 5 c3win.base_seq) ∧
    ((∀ j, j < c3win.in_flight →
      (wsub32 5 ((c3win.base_seq + j) % 4294967296) < 2147483648 →
        (c3win.ack_cumulative 5).1.entries.getD
            ((c3win.base_seq + j) % c3win.entries.length) default =
          { c3win.entries.getD ((c3win.base_seq + j) % c3win.entries.length) default with
            acked := true, in_use := false }) ∧
      (2147483648 ≤ wsub32 5 ((c3win.base_seq + j) % 4294967296) →
        (c3win.ack_cumulative 5).1.entries.getD
            ((c3win.base_seq + j) % c3win.entries.length) default =
          c3win.entries.getD ((c3win.base_seq + j) % c3win.entries.length) default)) ∧
    (∀ i, (∀ j, j < c3win.in_flight →
        (c3win.base_seq + j) % c3win.entries.length ≠ i) →
      (c3win.ack_cumulative 5).1.entries.getD i default =
        c3win.entries.getD i default) ∧
    (c3win.ack_cumulative 5).2 =
      ((List.range c3win.in_flight).filter
        (fun j => decide (wsub32 5 ((c3win.base_seq + j) % 4294967296) <
          2147483648))).length) :=
  ⟨by decide, by decide, by decide,
    ack_cumulative_retires_iff c3win 5 (by decide) (by decide) (by decide)⟩

/-! ## Sender channel `check_retransmit` (`channel/sender.rs`) -/

/-- The sender state driving retransmission (`channel/sender.rs`,
`struct Sender`): the send window and the retransmit manager (the other
fields — packet id counter, ack number, frame buffer, channel state —
play no part in `check_retransmit`). -/
structure Sender where
  window : SendWindow
  retransmit : RetransmitManager
  deriving DecidableEq

/-- `Sender::check_retransmit` with an always-succeeding carrier: run
`check_timeouts` (whose callback rewrites the stored window bytes to the
carrier for each expired non-exceeded entry found in the window, counting
it), then walk ALL still-pending sequences (collected into a capacity-64
vector) and mark each retransmitted in both the retransmit manager and
the send window, ignoring errors.  Returns the retransmit count the
closure accumulated. -/
def Sender.check_retransmit (s : Sender) (timestamp : Nat) : Sender × Nat :=
  let r := s.retransmit.check_timeouts timestamp
  let retransmit_count :=
    (r.2.2.filter (fun cb => !cb.2 && (s.window.get_entry cb.1).isSome)).length
  let seqs := r.1.pending_sequences.take 64
  let final := seqs.foldl
    (fun (acc : RetransmitManager × SendWindow) sq =>
      let m2 := match acc.1.mark_retransmitted sq timestamp with
        | .ok m => m
        | .error _ => acc.1
      let w2 := match acc.2.mark_retransmitted sq timestamp with
        | .ok w => w
        | .error _ => acc.2
      (m2, w2)) (r.1, s.window)
  ({ window := final.2, retransmit := final.1 }, retransmit_count)

/-- A capacity-4 send window holding one in-flight frame of sequence 0,
sent at time 0. -/
def c7window : SendWindow :=
  let w0 := SendWindow.new 4 8 4 0
  match w0.add_frame 8 [7] 0 with
  | .ok r => r.2
  | .error _ => w0

/-- A retransmit manager tracking sequence 0 (registered at time 0), base
timeout 1000 ms, max 5 attempts. -/
def c7mgr : RetransmitManager :=
  match (RetransmitManager.new 4 5 (RetransmitTimer.new 1000 30000 2)).register 0 0 with
  | .ok m => m
  | .error _ => RetransmitManager.new 4 5 (RetransmitTimer.new 1000 30000 2)

/-- A sender with one pending frame, nowhere near its 1000 ms timeout. -/
def c7sender : Sender := { window := c7window, retransmit := c7mgr }

/-- C7 failing input evaluated: at `t = 10` the pending entry has not
timed out (sent at 0, current timeout 1000), `check_timeouts` fires no
callback and nothing is written to the carrier (retransmit count 0) — yet
`check_retransmit` bumps the entry's attempt counter to 2 and refreshes
its last-sent time to 10 in the retransmit manager, and likewise the
window entry's transmit count and sent time, because the code
unconditionally marks every still-pending sequence as retransmitted. -/
theorem check_retransmit_marks_unexpired :
    (c7sender.retransmit.pending.getD 0 default).last_sent = 0 ∧
    (c7sender.retransmit.pending.getD 0 default).attempts = 1 ∧
    c7sender.retransmit.timer.current_timeout = 1000 ∧
    (c7sender.check_retransmit 10).2 = 0 ∧
    ((c7sender.check_retransmit 10).1.retransmit.pending.getD 0 default).attempts = 2 ∧
    ((c7sender.check_retransmit 10).1.retransmit.pending.getD 0 default).last_sent = 10 ∧
    ((c7sender.check_retransmit 10).1.window.entries.getD 0 default).transmit_count = 2 ∧
    ((c7sender.check_retransmit 10).1.window.entries.getD 0 default).sent_time = 10 := by
  decide

/-! ## Receive window (`buffer/window.rs`, `ReceiveWindow<W>`) -/

/-- The receive window: the `[bool; W]` bitmap is modelled as a list. -/
structure ReceiveWindow where
  received : List Bool
  expected_seq : Nat
  highest_received : Nat
  window_size : Nat
  deriving DecidableEq

/-- `ReceiveWindow::new` for capacity `W`. -/
def ReceiveWindow.new (W window_size initial_seq : Nat) : ReceiveWindow :=
  ⟨List.replicate W false, initial_seq, wsub32 initial_seq 1, min window_size W⟩

/-- `ReceiveWindow::receive`: classify a sequence as new (bit stored,
highest-received updated when ahead), duplicate (in-window bit already
set, or an old duplicate within one window-span before
`expected_sequence`) or out of range.  The `window_size as u32` casts of
the source are the `% 4294967296`. -/
def ReceiveWindow.receive (w : ReceiveWindow) (seq : Nat) :
    Except Error Bool × ReceiveWindow :=
  if ¬ wsub32 seq w.expected_seq < w.window_size % 4294967296 then
    if wsub32 w.expected_seq seq < w.window_size % 4294967296 ∧
        0 < wsub32 w.expected_seq seq then
      (.ok false, w)
    else (.error .sequenceOutOfRange, w)
  else
    let index := seq % w.received.length
    if w.received.getD index false = true then (.ok false, w)
    else
      let received2 := w.received.set index true
      let diff := wsub32 seq w.highest_received
      let highest2 := if diff < 0x7FFFFFFF ∧ 0 < diff then seq else w.highest_received
      (.ok true, { w with received := received2, highest_received := highest2 })

/-- C8: `receive(seq)` returns new (`Ok(true)`) iff `seq` is in-window
(wrapping distance from `expected_sequence` below `window_size`) with its
bit unset, in which case it stores the bit and bumps `highest_received`
when `seq` is ahead of it; returns duplicate (`Ok(false)`) iff in-window
with the bit set or within one window-span before `expected_sequence`;
fails with sequence-out-of-range in every other case, leaving the state
unchanged whenever the result is not "new". -/
theorem receive_window_receive_classification (w : ReceiveWindow) (seq : Nat)
    (hws : w.window_size < 2147483648)
    (hseq : seq < 4294967296) (hexp : w.expected_seq < 4294967296) :
    ((w.receive seq).1 = .ok true ↔
      (wsub32 seq w.expected_seq < w.window_size ∧
        ¬ w.received.getD (seq % w.received.length) false = true)) ∧
    ((w.receive seq).1 = .ok false ↔
      ((wsub32 seq w.expected_seq < w.window_size ∧
        w.received.getD (seq % w.received.length) false = true) ∨
       (0 < wsub32 w.expected_seq seq ∧ wsub32 w.expected_seq seq < w.window_size))) ∧
    ((w.receive seq).1 = .error .sequenceOutOfRange ↔
      (¬ wsub32 seq w.expected_seq < w.window_size ∧
       ¬ (0 < wsub32 w.expected_seq seq ∧
          wsub32 w.expected_seq seq < w.window_size))) ∧
    ((wsub32 seq w.expected_seq < w.window_size ∧
        ¬ w.received.getD (seq % w.received.length) false = true) →
      (w.receive seq).2 = { w with
        received := w.received.set (seq % w.received.length) true,
        highest_received :=
          if wsub32 seq w.highest_received < 0x7FFFFFFF ∧
              0 < wsub32 seq w.highest_received
          then seq else w.highest_received }) ∧
    (¬ (wsub32 seq w.expected_seq < w.window_size ∧
        ¬ w.received.getD (seq % w.received.length) false = true) →
      (w.receive seq).2 = w) := by
  have hwsm : w.window_size % 4294967296 = w.window_size := by omega
  have hdisj : wsub32 seq w.expected_seq < w.window_size →
      ¬ (0 < wsub32 w.expected_seq seq ∧
        wsub32 w.expected_seq seq < w.window_size) := by
    intro h1 h2
    unfold wsub32 at h1 h2
    omega
  unfold ReceiveWindow.receive
  rw [hwsm]
  by_cases hin : wsub32 seq w.expected_seq < w.window_size
  · rw [if_neg (not_not_intro hin)]
    by_cases hbit : w.received.getD (seq % w.received.length) false = true
    · rw [if_pos hbit]
      exact ⟨iff_of_false (by simp) (fun h => h.2 hbit),
        iff_of_true rfl (Or.inl ⟨hin, hbit⟩),
        iff_of_false (by simp) (fun h => h.1 hin),
        fun h => absurd hbit h.2, fun _ => rfl⟩
    · rw [if_neg hbit]
      exact ⟨iff_of_true rfl ⟨hin, hbit⟩,
        iff_of_false (by simp)
          (fun h => h.elim (fun hb => hbit hb.2) (hdisj hin)),
        iff_of_false (by simp) (fun h => h.1 hin),
        fun _ => rfl, fun h => absurd ⟨hin, hbit⟩ h⟩
  · rw [if_pos hin]
    by_cases hold : 0 < wsub32 w.expected_seq seq ∧
        wsub32 w.expected_seq seq < w.window_size
    · rw [if_pos ⟨hold.2, hold.1⟩]
      exact ⟨iff_of_false (by simp) (fun h => hin h.1),
        iff_of_true rfl (Or.inr hold),
        iff_of_false (by simp) (fun h => h.2 hold),
        fun h => absurd h.1 hin, fun _ => rfl⟩
    · rw [if_neg (fun hc => hold ⟨hc.2, hc.1⟩)]
      exact ⟨iff_of_false (by simp) (fun h => hin h.1),
        iff_of_false (by simp) (fun h => h.elim (fun hb => hin hb.1) hold),
        iff_of_true rfl ⟨hin, hold⟩,
        fun h => absurd h.1 hin, fun _ => rfl⟩

/-- Witness for the receive classification at a fresh window and seq 3. -/
theorem receive_window_receive_classification_witness :
    ((ReceiveWindow.new 8 8 0).window_size < 2147483648 ∧ (3:Nat) < 4294967296 ∧
      (ReceiveWindow.new 8 8 0).expected_seq < 4294967296) ∧
    (((ReceiveWindow.new 8 8 0).receive 3).1 = .ok true ↔
      (wsub32 3 (ReceiveWindow.new 8 8 0).expected_seq <
          (ReceiveWindow.new 8 8 0).window_size ∧
        ¬ (ReceiveWindow.new 8 8 0).received.getD
          (3 % (ReceiveWindow.new 8 8 0).received.length) false = true)) :=
  ⟨⟨by decide, by decide, by decide⟩,
    (receive_window_receive_classification (ReceiveWindow.new 8 8 0) 3
      (by decide) (by decide) (by decide)).1⟩

/-! ## Packet fragmentation (`core/packet.rs`) and reassembly
(`reliable/reassembler.rs`) -/

/-- `Packet::fragment_count`: fragments needed at a given max payload. -/
def fragment_count (data : List Nat) (max_payload : Nat) : Nat :=
  if data.isEmpty then 1 else (data.length + max_payload - 1) / max_payload

/-- `Packet::fragment_data`: the slice `[index*P, min((index+1)*P, len))`
of the packet data, `none` when the index is out of range. -/
def fragment_data (data : List Nat) (index max_payload : Nat) : Option (List Nat) :=
  if fragment_count data max_payload ≤ index then none
  else some ((data.drop (index * max_payload)).take max_payload)

/-- A reassembly slot (`ReassemblyEntry<N>`); the byte buffer and the
received-fragment bitmap are modelled as functions. -/
structure ReassemblyEntry where
  packet_id : Nat
  buffer : Nat → Nat
  len : Nat
  expected_size : Option Nat
  total_fragments : Nat
  received_fragments : Nat → Bool
  received_count : Nat
  start_time : Nat
  in_use : Bool

/-- `ReassemblyEntry::new`. -/
def ReassemblyEntry.new : ReassemblyEntry :=
  ⟨0, fun _ => 0, 0, none, 0, fun _ => false, 0, 0, false⟩

instance : Inhabited ReassemblyEntry := ⟨ReassemblyEntry.new⟩

/-- `ReassemblyEntry::init` (the byte buffer is not cleared). -/
def ReassemblyEntry.init (e : ReassemblyEntry)
    (packet_id total_fragments timestamp : Nat) : ReassemblyEntry :=
  { e with
    packet_id := packet_id
    len := 0
    expected_size := none
    total_fragments := total_fragments
    received_fragments := fun _ => false
    received_count := 0
    start_time := timestamp
    in_use := true }

/-- `copy_from_slice`: writes `payload` into `buffer[offset..offset+len]`. -/
def writeBytes (buffer : Nat → Nat) (offset : Nat) (payload : List Nat) : Nat → Nat :=
  fun i =>
    if offset ≤ i ∧ i < offset + payload.length then payload.getD (i - offset) 0
    else buffer i

/-- `ReassemblyEntry::add_fragment` on a capacity-`N` buffer: rejects an
out-of-range index, drops duplicates, copies the payload at
`index * max_fragment_size`, records the total size on the last
fragment, and reports completion (`received_count` is a `u8`). -/
def ReassemblyEntry.add_fragment (e : ReassemblyEntry)
    (N fragment_index total_fragments : Nat) (payload : List Nat)
    (max_fragment_size : Nat) : Except Error (Bool × ReassemblyEntry) :=
  if total_fragments ≤ fragment_index then .error .invalidFragmentIndex
  else if e.received_fragments fragment_index then .ok (false, e)
  else if N < fragment_index * max_fragment_size + payload.length then .error .bufferTooSmall
  else
    let e2 := { e with
      buffer := writeBytes e.buffer (fragment_index * max_fragment_size) payload
      received_fragments := fun i => if i = fragment_index then true else e.received_fragments i
      received_count := (e.received_count + 1) % 256
      expected_size := if fragment_index = total_fragments - 1 then some (fragment_index * max_fragment_size + payload.length) else e.expected_size }
    .ok (decide (e2.received_count = total_fragments), e2)

/-- `ReassemblyEntry::get_data`: the assembled bytes once complete. -/
def ReassemblyEntry.get_data (e : ReassemblyEntry) : Option (List Nat) :=
  if e.received_count = e.total_fragments then
    some ((List.range (e.expected_size.getD e.len)).map e.buffer)
  else none

/-- `ReassemblyEntry::clear`. -/
def ReassemblyEntry.clear (e : ReassemblyEntry) : ReassemblyEntry :=
  { e with
    in_use := false
    len := 0
    expected_size := none
    received_count := 0
    received_fragments := fun _ => false }

/-- `ReassemblyEntry::is_timed_out` (`saturating_sub` is `Nat` subtraction). -/
def ReassemblyEntry.is_timed_out (e : ReassemblyEntry) (current_time timeout : Nat) : Bool :=
  e.in_use && decide (timeout ≤ current_time - e.start_time)

/-- The fragment reassembler (`Reassembler<E, N>`); the buffer capacity
`N` is passed at each call that uses it. -/
structure Reassembler where
  entries : List ReassemblyEntry
  max_fragment_size : Nat
  timeout : Nat
  active_count : Nat

/-- `Reassembler::new` with `E` slots. -/
def Reassembler.new (E max_fragment_size timeout : Nat) : Reassembler :=
  ⟨List.replicate E ReassemblyEntry.new, max_fragment_size, timeout, 0⟩

/-- `Reassembler::find_or_create_entry`: an existing entry for the packet
id, else the first free slot (initialised), else the first timed-out slot
(recycled), else `BufferFull`. -/
def Reassembler.find_or_create_entry (r : Reassembler)
    (packet_id total_fragments timestamp : Nat) : Except Error (Nat × Reassembler) :=
  match r.entries.findIdx? (fun e => e.in_use && e.packet_id == packet_id) with
  | some i => .ok (i, r)
  | none =>
    match r.entries.findIdx? (fun e => !e.in_use) with
    | some i =>
      let e2 := (r.entries.getD i ReassemblyEntry.new).init packet_id total_fragments timestamp
      .ok (i, { r with entries := r.entries.set i e2, active_count := r.active_count + 1 })
    | none =>
      match r.entries.findIdx? (fun e => e.is_timed_out timestamp r.timeout) with
      | some i =>
        let e2 := (r.entries.getD i ReassemblyEntry.new).init packet_id total_fragments timestamp
        .ok (i, { r with entries := r.entries.set i e2 })
      | none => .error .bufferFull

/-- `Reassembler::process_frame` on a capacity-`N` buffer: returns
`some packet_id` when a packet completed. -/
def Reassembler.process_frame (r : Reassembler) (N : Nat) (frame : Frame)
    (timestamp : Nat) : Except Error (Option Nat × Reassembler) :=
  if frame.total_fragments = 1 then .ok (some frame.packet_id, r)
  else
    match r.find_or_create_entry frame.packet_id frame.total_fragments timestamp with
    | .error err => .error err
    | .ok (idx, r2) =>
      match (r2.entries.getD idx ReassemblyEntry.new).add_fragment N frame.fragment_index
          frame.total_fragments frame.payload r2.max_fragment_size with
      | .error err => .error err
      | .ok (complete, e2) =>
        let r3 := { r2 with entries := r2.entries.set idx e2 }
        .ok (if complete then some frame.packet_id else none, r3)

/-- `Reassembler::take_completed` into a buffer of length `bufLen`: the
copied-out bytes are returned as a list and the slot is freed. -/
def Reassembler.take_completed (r : Reassembler) (packet_id bufLen : Nat) :
    Except Error (List Nat × Reassembler) :=
  match r.entries.findIdx?
      (fun e => e.in_use && e.packet_id == packet_id && (ReassemblyEntry.get_data e).isSome) with
  | some i =>
    let e := r.entries.getD i ReassemblyEntry.new
    let data := (ReassemblyEntry.get_data e).getD []
    if bufLen < data.length then .error .bufferTooSmall
    else
      let r2 := { r with entries := r.entries.set i e.clear, active_count := r.active_count - 1 }
      .ok (data, r2)
  | none => .error .incompleteFragment

/-- The `i`-th data frame of `Packet(M)` fragmented at payload size `P`. -/
def fragFrame (pid i n : Nat) (M : List Nat) (P : Nat) : Frame :=
  { version := VERSION
    frame_type := .data
    flags := 0
    sequence := 0
    ack := 0
    packet_id := pid
    fragment_index := i
    total_fragments := n
    checksum := 0
    payload := (fragment_data M i P).getD [] }

/-- Feed a list of frames through `process_frame`, collecting the
per-frame completion results. -/
def feedFrames (N : Nat) (fs : List Frame) (t : Nat) (r : Reassembler) :
    Except Error (Reassembler × List (Option Nat)) :=
  match fs with
  | [] => .ok (r, [])
  | f :: rest =>
    match r.process_frame N f t with
    | .error err => .error err
    | .ok (res, r2) =>
      match feedFrames N rest t r2 with
      | .error err => .error err
      | .ok (r3, l) => .ok (r3, res :: l)

lemma fragment_count_bounds (M : List Nat) (P : Nat) (hP : 0 < P) (hM : M ≠ []) :
    M.length ≤ fragment_count M P * P ∧ (fragment_count M P - 1) * P < M.length := by
  have hlen : 0 < M.length := List.length_pos.mpr hM
  unfold fragment_count
  rw [if_neg (fun h => hM (List.isEmpty_iff.mp h))]
  have hdm := Nat.div_add_mod (M.length + P - 1) P
  have hmod : (M.length + P - 1) % P < P := Nat.mod_lt _ hP
  rw [Nat.mul_comm] at hdm
  have hsub : ((M.length + P - 1) / P - 1) * P = (M.length + P - 1) / P * P - P := by
    rw [Nat.sub_mul, one_mul]
  omega

lemma frag_payload_spec (M : List Nat) (P i : Nat) (hP : 0 < P) (hM : M ≠ [])
    (hi : i < fragment_count M P) :
    (fragment_data M i P).getD [] = (M.drop (i * P)).take P ∧
    ((M.drop (i * P)).take P).length = min P (M.length - i * P) ∧
    i * P < M.length := by
  have hbd := fragment_count_bounds M P hP hM
  have hle : i * P ≤ (fragment_count M P - 1) * P :=
    Nat.mul_le_mul_right P (by omega)
  refine ⟨?_, ?_, ?_⟩
  · unfold fragment_data
    rw [if_neg (by omega)]
    rfl
  · simp [List.length_take, List.length_drop]
  · omega

lemma frag_payload_getD (M : List Nat) (P i k : Nat)
    (hk : k < ((M.drop (i * P)).take P).length) :
    ((M.drop (i * P)).take P).getD k 0 = M.getD (i * P + k) 0 := by
  have hkP : k < P := lt_of_lt_of_le hk (by simp [List.length_take])
  rw [List.getD_eq_getElem?_getD, List.getD_eq_getElem?_getD,
    List.getElem?_take, if_pos hkP, List.getElem?_drop]

lemma div_cover (P x i : Nat) (hP : 0 < P) (hx : x / P = i) :
    i * P ≤ x ∧ x < i * P + P := by
  have h1 := Nat.div_add_mod x P
  have h2 : x % P < P := Nat.mod_lt _ hP
  subst hx
  rw [Nat.mul_comm] at h1
  omega

lemma card_eq_iff_covers (n : Nat) (l : List Nat) (hl : ∀ j ∈ l, j < n) :
    l.toFinset.card = n ↔ ∀ j, j < n → j ∈ l := by
  have hsub : l.toFinset ⊆ Finset.range n := by
    intro j hj
    exact Finset.mem_range.mpr (hl j (List.mem_toFinset.mp hj))
  constructor
  · intro hcard j hj
    have heq : l.toFinset = Finset.range n :=
      Finset.eq_of_subset_of_card_le hsub (by simp [hcard])
    have hj2 : j ∈ l.toFinset := by
      rw [heq]
      exact Finset.mem_range.mpr hj
    exact List.mem_toFinset.mp hj2
  · intro hcov
    have hsub2 : Finset.range n ⊆ l.toFinset := by
      intro j hj
      exact List.mem_toFinset.mpr (hcov j (Finset.mem_range.mp hj))
    rw [Finset.Subset.antisymm hsub hsub2, Finset.card_range]

lemma toFinset_card_append_new (l : List Nat) (i : Nat) (h : i ∉ l) :
    (l ++ [i]).toFinset.card = l.toFinset.card + 1 := by
  have h2 : (l ++ [i]).toFinset = insert i l.toFinset := by
    rw [List.toFinset_append]
    simp [Finset.union_comm, Finset.insert_eq]
  rw [h2, Finset.card_insert_of_not_mem (by simpa using h)]

lemma toFinset_append_dup (l : List Nat) (i : Nat) (h : i ∈ l) :
    (l ++ [i]).toFinset = l.toFinset := by
  rw [List.toFinset_append]
  have hsub : ({i} : Finset Nat) ⊆ l.toFinset :=
    Finset.singleton_subset_iff.mpr (List.mem_toFinset.mpr h)
  have h1 : ([i] : List Nat).toFinset = ({i} : Finset Nat) := by simp
  rw [h1, Finset.union_eq_left.mpr hsub]

/-- The reassembly-slot invariant after the fragments of `Packet(M)` (at
payload size `P`) with index list `pre` — in arrival order, duplicates
allowed — have been processed into the slot. -/
def reasmEntryInv (pid n : Nat) (M : List Nat) (P : Nat) (pre : List Nat)
    (e : ReassemblyEntry) : Prop :=
  (pre = [] → e = ReassemblyEntry.new) ∧
  (pre ≠ [] → e.in_use = true ∧ e.packet_id = pid ∧ e.total_fragments = n) ∧
  (∀ j, e.received_fragments j = true ↔ j ∈ pre) ∧
  e.received_count = pre.toFinset.card ∧
  e.expected_size = (if n - 1 ∈ pre then some M.length else none) ∧
  (∀ x, x < M.length → x / P ∈ pre → e.buffer x = M.getD x 0)

lemma reasmEntryInv_nil (pid n : Nat) (M : List Nat) (P : Nat) :
    reasmEntryInv pid n M P [] ReassemblyEntry.new := by
  refine ⟨fun _ => rfl, fun h => absurd rfl h, ?_, ?_, ?_, ?_⟩
  · intro j
    simp [ReassemblyEntry.new]
  · simp [ReassemblyEntry.new]
  · simp [ReassemblyEntry.new]
  · intro x _ hx
    simp at hx

lemma add_fragment_spec (n N P : Nat) (M : List Nat) (i : Nat) (e : ReassemblyEntry)
    (pre : List Nat)
    (hP : 0 < P) (hM : M ≠ []) (hn : n = fragment_count M P) (hn2 : 2 ≤ n)
    (hn255 : n ≤ 255) (hN : M.length ≤ N) (hi : i < n)
    (hpre : ∀ j ∈ pre, j < n)
    (hrf : ∀ j, e.received_fragments j = true ↔ j ∈ pre)
    (hcount : e.received_count = pre.toFinset.card)
    (hexp : e.expected_size = (if n - 1 ∈ pre then some M.length else none))
    (hbufi : ∀ x, x < M.length → x / P ∈ pre → e.buffer x = M.getD x 0) :
    ∃ complete e2,
      e.add_fragment N i n ((M.drop (i * P)).take P) P = .ok (complete, e2) ∧
      e2.in_use = e.in_use ∧ e2.packet_id = e.packet_id ∧
      e2.total_fragments = e.total_fragments ∧
      (∀ j, e2.received_fragments j = true ↔ j ∈ pre ++ [i]) ∧
      e2.received_count = (pre ++ [i]).toFinset.card ∧
      e2.expected_size = (if n - 1 ∈ pre ++ [i] then some M.length else none) ∧
      (∀ x, x < M.length → x / P ∈ pre ++ [i] → e2.buffer x = M.getD x 0) ∧
      (complete = true ↔
        ((∀ j, j < n → j ∈ pre ++ [i]) ∧ ¬ (∀ j, j < n → j ∈ pre))) := by
  have hbd := fragment_count_bounds M P hP hM
  rw [← hn] at hbd
  have hi' : i < fragment_count M P := by omega
  have hfp := frag_payload_spec M P i hP hM hi'
  have hplen := hfp.2.1
  have hiPlen := hfp.2.2
  have hpre' : ∀ j ∈ pre ++ [i], j < n := by
    intro j hj
    rcases List.mem_append.mp hj with h | h
    · exact hpre j h
    · rw [List.mem_singleton] at h; omega
  by_cases hdup : i ∈ pre
  · refine ⟨false, e, ?_, rfl, rfl, rfl, ?_, ?_, ?_, ?_, ?_⟩
    · unfold ReassemblyEntry.add_fragment
      rw [if_neg (by omega : ¬ n ≤ i), if_pos ((hrf i).mpr hdup)]
    · intro j
      rw [hrf j]
      simp only [List.mem_append, List.mem_singleton]
      constructor
      · exact Or.inl
      · rintro (h | h)
        · exact h
        · rw [h]; exact hdup
    · rw [hcount, toFinset_append_dup pre i hdup]
    · rw [hexp]
      have hmem : (n - 1 ∈ pre ++ [i]) ↔ (n - 1 ∈ pre) := by
        simp only [List.mem_append, List.mem_singleton]
        constructor
        · rintro (h | h)
          · exact h
          · rw [h]; exact hdup
        · exact Or.inl
      by_cases hlast : n - 1 ∈ pre
      · rw [if_pos hlast, if_pos (hmem.mpr hlast)]
      · rw [if_neg hlast, if_neg (fun h => hlast (hmem.mp h))]
    · intro x hx hcov
      apply hbufi x hx
      rcases List.mem_append.mp hcov with h | h
      · exact h
      · rw [List.mem_singleton] at h; rw [h]; exact hdup
    · apply iff_of_false (by simp)
      rintro ⟨h1, h2⟩
      apply h2
      intro j hj
      rcases List.mem_append.mp (h1 j hj) with h | h
      · exact h
      · rw [List.mem_singleton] at h; rw [h]; exact hdup
  · have hrfi : e.received_fragments i = false := by
      cases hh : e.received_fragments i
      · rfl
      · exact absurd ((hrf i).mp hh) hdup
    have hsubR : (pre ++ [i]).toFinset ⊆ Finset.range n := by
      intro j hj
      rw [List.mem_toFinset] at hj
      exact Finset.mem_range.mpr (hpre' j hj)
    have hcard' : (pre ++ [i]).toFinset.card ≤ n :=
      le_trans (Finset.card_le_card hsubR) (le_of_eq (Finset.card_range n))
    have hnewcard : (pre ++ [i]).toFinset.card = pre.toFinset.card + 1 :=
      toFinset_card_append_new pre i hdup
    refine ⟨decide ((e.received_count + 1) % 256 = n),
      { e with
        buffer := writeBytes e.buffer (i * P) ((M.drop (i * P)).take P)
        received_fragments := fun j => if j = i then true else e.received_fragments j
        received_count := (e.received_count + 1) % 256
        expected_size := if i = n - 1 then some (i * P + ((M.drop (i * P)).take P).length) else e.expected_size },
      ?_, rfl, rfl, rfl, ?_, ?_, ?_, ?_, ?_⟩
    · unfold ReassemblyEntry.add_fragment
      rw [if_neg (by omega : ¬ n ≤ i),
        if_neg (by rw [hrfi]; exact Bool.false_ne_true),
        if_neg (by rw [hplen]; omega)]
    · intro j
      show (if j = i then true else e.received_fragments j) = true ↔ j ∈ pre ++ [i]
      by_cases hj : j = i
      · subst hj
        rw [if_pos rfl]
        simp
      · rw [if_neg hj, hrf j]
        simp only [List.mem_append, List.mem_singleton]
        constructor
        · exact Or.inl
        · rintro (h | h)
          · exact h
          · exact absurd h hj
    · show (e.received_count + 1) % 256 = (pre ++ [i]).toFinset.card
      rw [hcount, hnewcard]
      exact Nat.mod_eq_of_lt (by omega)
    · show (if i = n - 1 then some (i * P + ((M.drop (i * P)).take P).length) else e.expected_size) =
        if n - 1 ∈ pre ++ [i] then some M.length else none
      by_cases hilast : i = n - 1
      · rw [if_pos hilast, if_pos (by simp [hilast]), hplen]
        subst hilast
        simp only [Option.some.injEq]
        have h3 : (n - 1) * P = n * P - P := by rw [Nat.sub_mul, one_mul]
        omega
      · rw [if_neg hilast, hexp]
        have hmem : (n - 1 ∈ pre ++ [i]) ↔ (n - 1 ∈ pre) := by
          simp only [List.mem_append, List.mem_singleton]
          constructor
          · rintro (h | h)
            · exact h
            · exact absurd h.symm hilast
          · exact Or.inl
        by_cases hl : n - 1 ∈ pre
        · rw [if_pos hl, if_pos (hmem.mpr hl)]
        · rw [if_neg hl, if_neg (fun h => hl (hmem.mp h))]
    · intro x hx hcov
      show (if i * P ≤ x ∧ x < i * P + ((M.drop (i * P)).take P).length
          then ((M.drop (i * P)).take P).getD (x - i * P) 0 else e.buffer x) = M.getD x 0
      by_cases hin : i * P ≤ x ∧ x < i * P + ((M.drop (i * P)).take P).length
      · rw [if_pos hin, frag_payload_getD M P i (x - i * P) (by omega)]
        have hxx : i * P + (x - i * P) = x := by omega
        rw [hxx]
      · rw [if_neg hin]
        rcases List.mem_append.mp hcov with h | h
        · exact hbufi x hx h
        · rw [List.mem_singleton] at h
          exfalso
          have hdc := div_cover P x i hP h
          exact hin ⟨hdc.1, by rw [hplen]; omega⟩
    · show decide ((e.received_count + 1) % 256 = n) = true ↔ _
      rw [decide_eq_true_eq, hcount, Nat.mod_eq_of_lt (by omega : pre.toFinset.card + 1 < 256)]
      constructor
      · intro hc
        refine ⟨(card_eq_iff_covers n (pre ++ [i]) hpre').mp (by omega), ?_⟩
        intro hcovpre
        have := (card_eq_iff_covers n pre hpre).mpr hcovpre
        omega
      · rintro ⟨h1, _⟩
        have := (card_eq_iff_covers n (pre ++ [i]) hpre').mpr h1
        omega

lemma find_or_create_found (r : Reassembler) (pid n t i : Nat)
    (h : r.entries.findIdx? (fun e => e.in_use && e.packet_id == pid) = some i) :
    r.find_or_create_entry pid n t = .ok (i, r) := by
  unfold Reassembler.find_or_create_entry
  rw [h]

lemma find_or_create_create (r : Reassembler) (pid n t i : Nat)
    (h1 : r.entries.findIdx? (fun e => e.in_use && e.packet_id == pid) = none)
    (h2 : r.entries.findIdx? (fun e => !e.in_use) = some i) :
    r.find_or_create_entry pid n t =
      .ok (i, { r with
        entries := r.entries.set i ((r.entries.getD i ReassemblyEntry.new).init pid n t)
        active_count := r.active_count + 1 }) := by
  unfold Reassembler.find_or_create_entry
  rw [h1, h2]

lemma process_frame_eq (r : Reassembler) (N : Nat) (f : Frame) (t idx : Nat)
    (r2 : Reassembler) (complete : Bool) (e2 : ReassemblyEntry)
    (hne : ¬ f.total_fragments = 1)
    (hfoc : r.find_or_create_entry f.packet_id f.total_fragments t = .ok (idx, r2))
    (hadd : (r2.entries.getD idx ReassemblyEntry.new).add_fragment N f.fragment_index
        f.total_fragments f.payload r2.max_fragment_size = .ok (complete, e2)) :
    r.process_frame N f t =
      .ok (if complete then some f.packet_id else none,
        { r2 with entries := r2.entries.set idx e2 }) := by
  unfold Reassembler.process_frame
  rw [if_neg hne, hfoc]
  show (match (r2.entries.getD idx ReassemblyEntry.new).add_fragment N f.fragment_index
      f.total_fragments f.payload r2.max_fragment_size with
    | Except.error err => Except.error err
    | Except.ok (complete, e2) =>
      Except.ok (if complete then some f.packet_id else none,
        { r2 with entries := r2.entries.set idx e2 })) =
    Except.ok (if complete then some f.packet_id else none,
      { r2 with entries := r2.entries.set idx e2 })
  rw [hadd]

lemma process_frame_step (pid n N P t tmo ac : Nat) (M : List Nat) (i : Nat)
    (e0 : ReassemblyEntry) (rest : List ReassemblyEntry)
    (hrest : ∀ e ∈ rest, e = ReassemblyEntry.new)
    (hP : 0 < P) (hM : M ≠ []) (hn : n = fragment_count M P) (hn2 : 2 ≤ n)
    (hn255 : n ≤ 255) (hN : M.length ≤ N) (hi : i < n)
    (pre : List Nat) (hpre : ∀ j ∈ pre, j < n)
    (hinv : reasmEntryInv pid n M P pre e0) :
    ∃ res e1 ac2,
      (Reassembler.mk (e0 :: rest) P tmo ac).process_frame N (fragFrame pid i n M P) t =
        .ok (res, Reassembler.mk (e1 :: rest) P tmo ac2) ∧
      reasmEntryInv pid n M P (pre ++ [i]) e1 ∧
      (res = some pid ↔
        ((∀ j, j < n → j ∈ pre ++ [i]) ∧ ¬ (∀ j, j < n → j ∈ pre))) := by
  obtain ⟨hnil, hcons, hrf0, hcount0, hexp0, hbufi0⟩ := hinv
  have hi' : i < fragment_count M P := by omega
  have hfp := frag_payload_spec M P i hP hM hi'
  have hpay : (fragFrame pid i n M P).payload = (M.drop (i * P)).take P := hfp.1
  obtain ⟨eS, acS, hfoc, hSin, hSpid, hStot, hSrf, hScount, hSexp, hSbuf⟩ :
      ∃ eS acS,
        (Reassembler.mk (e0 :: rest) P tmo ac).find_or_create_entry pid n t =
          .ok (0, Reassembler.mk (eS :: rest) P tmo acS) ∧
        eS.in_use = true ∧ eS.packet_id = pid ∧ eS.total_fragments = n ∧
        (∀ j, eS.received_fragments j = true ↔ j ∈ pre) ∧
        eS.received_count = pre.toFinset.card ∧
        eS.expected_size = (if n - 1 ∈ pre then some M.length else none) ∧
        (∀ x, x < M.length → x / P ∈ pre → eS.buffer x = M.getD x 0) := by
    by_cases hpre0 : pre = []
    · subst hpre0
      have he0 : e0 = ReassemblyEntry.new := hnil rfl
      subst he0
      have hf1 : (Reassembler.mk (ReassemblyEntry.new :: rest) P tmo ac).entries.findIdx?
          (fun e => e.in_use && e.packet_id == pid) = none := by
        show (ReassemblyEntry.new :: rest).findIdx? _ = none
        rw [List.findIdx?_eq_none_iff]
        intro x hx
        rcases List.mem_cons.mp hx with h | h
        · rw [h]; rfl
        · rw [hrest x h]; rfl
      have hf2 : (Reassembler.mk (ReassemblyEntry.new :: rest) P tmo ac).entries.findIdx?
          (fun e => !e.in_use) = some 0 := by
        show (ReassemblyEntry.new :: rest).findIdx? _ = some 0
        rw [List.findIdx?_cons,
          if_pos (show (!ReassemblyEntry.new.in_use) = true from rfl)]
      refine ⟨ReassemblyEntry.new.init pid n t, ac + 1, ?_, rfl, rfl, rfl, ?_, ?_, ?_, ?_⟩
      · exact find_or_create_create (Reassembler.mk (ReassemblyEntry.new :: rest) P tmo ac)
          pid n t 0 hf1 hf2
      · intro j
        simp [ReassemblyEntry.init, ReassemblyEntry.new]
      · simp [ReassemblyEntry.init]
      · simp [ReassemblyEntry.init]
      · intro x _ hx
        simp at hx
    · obtain ⟨hin0, hpid0, htot0⟩ := hcons hpre0
      have hf1 : (Reassembler.mk (e0 :: rest) P tmo ac).entries.findIdx?
          (fun e => e.in_use && e.packet_id == pid) = some 0 := by
        show (e0 :: rest).findIdx? _ = some 0
        rw [List.findIdx?_cons, if_pos (by simp [hin0, hpid0])]
      exact ⟨e0, ac, find_or_create_found _ pid n t 0 hf1, hin0, hpid0, htot0,
        hrf0, hcount0, hexp0, hbufi0⟩
  obtain ⟨complete, e2, hadd, hin2, hpid2, htot2, hrf2, hcount2, hexp2, hbuf2, hcompl⟩ :=
    add_fragment_spec n N P M i eS pre hP hM hn hn2 hn255 hN hi hpre hSrf hScount hSexp hSbuf
  rw [← hpay] at hadd
  have hpe := process_frame_eq (Reassembler.mk (e0 :: rest) P tmo ac) N
    (fragFrame pid i n M P) t 0 (Reassembler.mk (eS :: rest) P tmo acS) complete e2
    (by show ¬ n = 1; omega) hfoc hadd
  refine ⟨if complete then some pid else none, e2, acS, hpe, ?_, ?_⟩
  · refine ⟨fun h => absurd h (by simp), fun _ => ⟨hin2.trans hSin, hpid2.trans hSpid,
      htot2.trans hStot⟩, hrf2, hcount2, hexp2, hbuf2⟩
  · cases complete
    · exact iff_of_false (by simp) (fun h => by simpa using hcompl.mpr h)
    · exact iff_of_true (by simp) (hcompl.mp rfl)

lemma feedFrames_run (pid n N P t tmo : Nat) (M : List Nat)
    (hP : 0 < P) (hM : M ≠ []) (hn : n = fragment_count M P) (hn2 : 2 ≤ n)
    (hn255 : n ≤ 255) (hN : M.length ≤ N) :
    ∀ (order pre : List Nat) (e0 : ReassemblyEntry) (rest : List ReassemblyEntry) (ac : Nat),
      (∀ e ∈ rest, e = ReassemblyEntry.new) →
      (∀ j ∈ order, j < n) → (∀ j ∈ pre, j < n) →
      reasmEntryInv pid n M P pre e0 →
      ∃ e1 ac2 rs,
        feedFrames N (order.map (fun j => fragFrame pid j n M P)) t
            (Reassembler.mk (e0 :: rest) P tmo ac) =
          .ok (Reassembler.mk (e1 :: rest) P tmo ac2, rs) ∧
        reasmEntryInv pid n M P (pre ++ order) e1 ∧
        rs.length = order.length ∧
        (∀ k, k < order.length →
          (rs.getD k none = some pid ↔
            ((∀ j, j < n → j ∈ pre ++ order.take (k + 1)) ∧
             ¬ (∀ j, j < n → j ∈ pre ++ order.take k)))) := by
  intro order
  induction order with
  | nil =>
    intro pre e0 rest ac hrest hord hpre hinv
    refine ⟨e0, ac, [], rfl, ?_, rfl, ?_⟩
    · rw [List.append_nil]; exact hinv
    · intro k hk; exact absurd hk (by simp)
  | cons i ord ih =>
    intro pre e0 rest ac hrest hord hpre hinv
    have hi : i < n := hord i (List.mem_cons_self i ord)
    have hord' : ∀ j ∈ ord, j < n := fun j hj => hord j (List.mem_cons_of_mem i hj)
    obtain ⟨res, e1, ac2, hpe, hinv1, hres⟩ :=
      process_frame_step pid n N P t tmo ac M i e0 rest hrest hP hM hn hn2 hn255 hN hi
        pre hpre hinv
    have hpre1 : ∀ j ∈ pre ++ [i], j < n := by
      intro j hj
      rcases List.mem_append.mp hj with h | h
      · exact hpre j h
      · rw [List.mem_singleton] at h; omega
    obtain ⟨e2, ac3, rs, hfeed, hinv2, hlen, hchar⟩ :=
      ih (pre ++ [i]) e1 rest ac2 hrest hord' hpre1 hinv1
    refine ⟨e2, ac3, res :: rs, ?_, ?_, by simp [hlen], ?_⟩
    · show feedFrames N (fragFrame pid i n M P :: ord.map (fun j => fragFrame pid j n M P)) t
        (Reassembler.mk (e0 :: rest) P tmo ac) = _
      unfold feedFrames
      rw [hpe]
      show (match feedFrames N (List.map (fun j => fragFrame pid j n M P) ord) t
          (Reassembler.mk (e1 :: rest) P tmo ac2) with
        | Except.error err => Except.error err
        | Except.ok (r3, l) => Except.ok (r3, res :: l)) = _
      rw [hfeed]
    · have hap : pre ++ i :: ord = (pre ++ [i]) ++ ord := by simp
      rw [hap]; exact hinv2
    · intro k hk
      cases k with
      | zero =>
        simpa only [List.getD_cons_zero, Nat.zero_add, List.take_succ_cons, List.take_zero,
          List.append_nil] using hres
      | succ k' =>
        have hk' : k' < ord.length := by simpa using hk
        simpa only [List.getD_cons_succ, List.take_succ_cons, List.append_assoc,
          List.singleton_append] using hchar k' hk'

lemma take_completed_eq (r : Reassembler) (pid bufLen : Nat) (e1 : ReassemblyEntry)
    (M : List Nat)
    (hfind : r.entries.findIdx?
      (fun e => e.in_use && e.packet_id == pid && (ReassemblyEntry.get_data e).isSome) = some 0)
    (hget : r.entries.getD 0 ReassemblyEntry.new = e1)
    (hdata : ReassemblyEntry.get_data e1 = some M)
    (hbuf : M.length ≤ bufLen) :
    r.take_completed pid bufLen =
      .ok (M, { r with
        entries := r.entries.set 0 e1.clear
        active_count := r.active_count - 1 }) := by
  unfold Reassembler.take_completed
  rw [hfind]
  show (if bufLen < ((ReassemblyEntry.get_data (r.entries.getD 0 ReassemblyEntry.new)).getD []).length
      then (Except.error Error.bufferTooSmall : Except Error (List Nat × Reassembler))
      else Except.ok ((ReassemblyEntry.get_data (r.entries.getD 0 ReassemblyEntry.new)).getD [],
        { r with
          entries := r.entries.set 0 (r.entries.getD 0 ReassemblyEntry.new).clear
          active_count := r.active_count - 1 })) = _
  rw [hget, hdata, Option.getD_some, if_neg (by omega)]

/-- C2: for every message `M`, payload size `P > 0` splitting `M` into at
least 2 and at most 255 fragments that fit the reassembly buffer, feeding
the fragment frames of `Packet(M)` to a fresh reassembler in any order
`order` covering every index (duplicates allowed) never fails, reports
completion (`some packet_id`) exactly at the step that processes the last
distinct fragment index, and `take_completed` then returns `M`
byte-for-byte. -/
theorem reassembler_order_independent (M : List Nat) (P N E pid t tmo bufLen : Nat)
    (order : List Nat)
    (hP : 0 < P) (hM : M ≠ [])
    (hn2 : 2 ≤ fragment_count M P) (hn255 : fragment_count M P ≤ 255)
    (hN : M.length ≤ N) (hE : 0 < E)
    (hord : ∀ j ∈ order, j < fragment_count M P)
    (hcov : ∀ j, j < fragment_count M P → j ∈ order)
    (hbuf : M.length ≤ bufLen) :
    ∃ r rs,
      feedFrames N (order.map (fun j => fragFrame pid j (fragment_count M P) M P)) t
          (Reassembler.new E P tmo) = .ok (r, rs) ∧
      rs.length = order.length ∧
      (∀ k, k < order.length →
        (rs.getD k none = some pid ↔
          ((∀ j, j < fragment_count M P → j ∈ order.take (k + 1)) ∧
           ¬ (∀ j, j < fragment_count M P → j ∈ order.take k)))) ∧
      ∃ r2, r.take_completed pid bufLen = .ok (M, r2) := by
  obtain ⟨E', rfl⟩ : ∃ E', E = E' + 1 := ⟨E - 1, by omega⟩
  have hentries : Reassembler.new (E' + 1) P tmo =
      Reassembler.mk (ReassemblyEntry.new :: List.replicate E' ReassemblyEntry.new) P tmo 0 := by
    unfold Reassembler.new
    rw [List.replicate_succ]
  obtain ⟨e1, ac2, rs, hfeed, hinv, hlen, hchar⟩ :=
    feedFrames_run pid (fragment_count M P) N P t tmo M hP hM rfl hn2 hn255 hN order []
      ReassemblyEntry.new (List.replicate E' ReassemblyEntry.new) 0
      (fun e he => (List.mem_replicate.mp he).2) hord (by simp)
      (reasmEntryInv_nil pid (fragment_count M P) M P)
  rw [List.nil_append] at hinv
  refine ⟨Reassembler.mk (e1 :: List.replicate E' ReassemblyEntry.new) P tmo ac2, rs,
    ?_, hlen, ?_, ?_⟩
  · rw [hentries]; exact hfeed
  · intro k hk
    simpa only [List.nil_append] using hchar k hk
  · obtain ⟨_, hcons, hrf, hcount, hexp, hbufi⟩ := hinv
    have hn0 : (0:Nat) < fragment_count M P := by omega
    have hne : order ≠ [] := List.ne_nil_of_mem (hcov 0 hn0)
    obtain ⟨hin, hpid, htot⟩ := hcons hne
    have hcard : order.toFinset.card = fragment_count M P :=
      (card_eq_iff_covers (fragment_count M P) order hord).mpr hcov
    have hlast : fragment_count M P - 1 ∈ order := hcov _ (by omega)
    have hb := (fragment_count_bounds M P hP hM).1
    have hdata : ReassemblyEntry.get_data e1 = some M := by
      unfold ReassemblyEntry.get_data
      rw [htot, hcount, hcard, if_pos rfl, hexp, if_pos hlast]
      have hsz : (some M.length).getD e1.len = M.length := rfl
      rw [hsz]
      congr 1
      apply List.ext_getElem
      · simp
      · intro k h1 h2
        simp only [List.getElem_map, List.getElem_range]
        have hkM : k < M.length := h2
        have hdiv : k / P ∈ order :=
          hcov (k / P) ((Nat.div_lt_iff_lt_mul hP).mpr (by omega))
        rw [hbufi k hkM hdiv]
        exact List.getD_eq_getElem M 0 hkM
    have hfind : (Reassembler.mk (e1 :: List.replicate E' ReassemblyEntry.new) P tmo
        ac2).entries.findIdx?
        (fun e => e.in_use && e.packet_id == pid && (ReassemblyEntry.get_data e).isSome) =
        some 0 := by
      show (e1 :: List.replicate E' ReassemblyEntry.new).findIdx? _ = some 0
      rw [List.findIdx?_cons, if_pos (by simp [hin, hpid, hdata])]
    exact ⟨_, take_completed_eq _ pid bufLen e1 M hfind rfl hdata hbuf⟩

/-- Witness for the reassembly theorem: the 3-byte message `[10, 20, 30]`
at payload size 2 splits into 2 fragments, fed in the order `[1, 0, 1]`
(out of order, with a duplicate). -/
theorem reassembler_order_independent_witness :
    ((0:Nat) < 2 ∧ ([10, 20, 30] : List Nat) ≠ [] ∧
      2 ≤ fragment_count [10, 20, 30] 2 ∧ fragment_count [10, 20, 30] 2 ≤ 255 ∧
      ([10, 20, 30] : List Nat).length ≤ 4 ∧ (0:Nat) < 1 ∧
      (∀ j ∈ ([1, 0, 1] : List Nat), j < fragment_count [10, 20, 30] 2) ∧
      (∀ j, j < fragment_count [10, 20, 30] 2 → j ∈ ([1, 0, 1] : List Nat)) ∧
      ([10, 20, 30] : List Nat).length ≤ 3) ∧
    (∃ r rs,
      feedFrames 4 (([1, 0, 1] : List Nat).map
          (fun j => fragFrame 7 j (fragment_count [10, 20, 30] 2) [10, 20, 30] 2)) 0
          (Reassembler.new 1 2 5000) = .ok (r, rs) ∧
      rs.length = ([1, 0, 1] : List Nat).length ∧
      (∀ k, k < ([1, 0, 1] : List Nat).length →
        (rs.getD k none = some 7 ↔
          ((∀ j, j < fragment_count [10, 20, 30] 2 → j ∈ ([1, 0, 1] : List Nat).take (k + 1)) ∧
           ¬ (∀ j, j < fragment_count [10, 20, 30] 2 → j ∈ ([1, 0, 1] : List Nat).take k)))) ∧
      ∃ r2, r.take_completed 7 3 = .ok ([10, 20, 30], r2)) :=
  ⟨⟨by decide, by decide, by decide, by decide, by decide, by decide, by decide, by decide,
      by decide⟩,
    reassembler_order_independent [10, 20, 30] 2 4 1 7 0 5000 3 [1, 0, 1]
      (by decide) (by decide) (by decide) (by decide) (by decide) (by decide) (by decide)
      (by decide) (by decide)⟩

end XTransport
